import Mathlib

/-!
# report1: a verification development

A shallow embedding of `src/report1/report1.go` (package `report1`) and
theorems about it.

Conventions of the embedding.

* A Go `string` is a Lean `String`, a sequence of Unicode characters (the
  texts the program handles are UTF-8); a `strings.Builder` is the `String`
  written so far, `WriteString` appends, `Reset` gives `""`.
* A Go `error` is an `Option String` (`none` is `nil`), a result with an
  error an `Except String`. A function that may not return (a panic, a loop
  that is cut off) has its result in an `Option`.
* Go's `int` is 64 bits wide and a slice is far shorter than `2^63 - 75`, so
  the index arithmetic of the batch loop does not wrap; it is done in `Nat`.
* A Go slice `[]Record` is a `List Record`; `append(xs, x)` is `xs ++ [x]`.
* The standard library (`bufio.Scanner`, `regexp`, `text/template`, `os`,
  `net/http`, `golang.org/x/net/html`) is not part of the repository. Its
  documented behaviour is modelled by small definitions or taken as input
  data; each such definition says so.
-/

namespace Report1

/-! ## Data model -/

/-- The Go type `Record` (report1.go, lines 18-20): one field, `Content`. -/
structure Record where
  Content : String
  deriving DecidableEq, Repr

/-! ## `strings.TrimSpace` -/

/-- Go `unicode.IsSpace`: in Latin-1 the characters tab, LF, VT, FF, CR, space,
U+0085 and U+00A0; beyond Latin-1 the code points of the Unicode property
`White_Space`. -/
def isSpace (r : Char) : Bool :=
  let n := r.toNat
  if n ≤ 0xFF then
    n == 0x09 || n == 0x0A || n == 0x0B || n == 0x0C || n == 0x0D || n == 0x20 ||
      n == 0x85 || n == 0xA0
  else
    n == 0x1680 || (0x2000 ≤ n && n ≤ 0x200A) || n == 0x2028 || n == 0x2029 ||
      n == 0x202F || n == 0x205F || n == 0x3000

/-- Go `strings.TrimSpace`: the string without its leading and trailing white
space, as `unicode.IsSpace` defines it. -/
def TrimSpace (s : String) : String :=
  ⟨((s.data.dropWhile isSpace).reverse.dropWhile isSpace).reverse⟩

/-! ## `parse`: the scanning loop (report1.go, lines 134-161) -/

/-- The local variables of `parse` that the loop updates: `records`,
`currentRecord` (the builder's text) and `inRecord`. -/
structure ParseState where
  records : List Record
  currentRecord : String
  inRecord : Bool
  deriving DecidableEq, Repr

/-- The state before the loop (lines 134-136): no records, an empty builder,
`inRecord` false. -/
def ParseState.init : ParseState :=
  { records := [], currentRecord := "", inRecord := false }

/-- The test of line 143: `strings.TrimSpace(line) == "reply"`. -/
def isSentinel (line : String) : Bool :=
  TrimSpace line == "reply"

/-- One iteration of the loop body, lines 141-155. -/
def parseStep (st : ParseState) (line : String) : ParseState :=
  if isSentinel line then
    if st.inRecord then
      { records := st.records ++ [{ Content := st.currentRecord }],
        currentRecord := "",
        inRecord := true }
    else
      { st with inRecord := true }
  else
    if st.inRecord then
      { st with currentRecord := (st.currentRecord ++ line) ++ "\n" }
    else
      st

/-- The loop `for scanner.Scan() { ... }` over the lines the scanner returns. -/
def parseLoop (st : ParseState) (lines : List String) : ParseState :=
  lines.foldl parseStep st

/-- The flush after the loop, lines 158-161: one more record when the builder
is not empty. -/
def parseFlush (st : ParseState) : List Record :=
  if st.currentRecord.length > 0 then
    st.records ++ [{ Content := st.currentRecord }]
  else
    st.records

/-! ## `regexp`: the fragment `filterRecords` needs

`regexp` is Go's standard library. `filterRecords` is embedded over any
implementation of `MustCompile` and `MatchString`; `regexpMustCompile` models
the library on the fragment of the RE2 syntax that the pattern of
`buildTemplates` lives in. -/

/-- A compiled `*regexp.Regexp`, as far as the program uses it: its method
`MatchString`. -/
structure Regexp where
  MatchString : String → Bool

/-- The characters Go's case folding (`unicode.SimpleFold`) identifies with an
ASCII character: a letter with its other case, and for `k` and `s` also the
Kelvin sign U+212A and the long s U+017F. -/
def foldOrbit (c : Char) : List Char :=
  if c = 'k' ∨ c = 'K' then ['k', 'K', Char.ofNat 0x212A]
  else if c = 's' ∨ c = 'S' then ['s', 'S', Char.ofNat 0x017F]
  else if c.isAlpha then [c.toLower, c.toUpper]
  else [c]

/-- The literal characters of the modelled fragment: ASCII letters, digits,
the space and the underscore (none is a metacharacter of the RE2 syntax). -/
def isLiteralChar (c : Char) : Bool :=
  c.isAlphanum || c == ' ' || c == '_'

/-- One literal character as a regular expression: the character itself, or
with the flag `i` any character of its fold orbit. -/
def literalChar (foldCase : Bool) (c : Char) : RegularExpression Char :=
  if foldCase then
    ((foldOrbit c).map RegularExpression.char).foldr (· + ·) 0
  else
    RegularExpression.char c

/-- A sequence of literals: their concatenation. -/
def literalSeq (foldCase : Bool) (cs : List Char) : RegularExpression Char :=
  (cs.map (literalChar foldCase)).foldr (· * ·) 1

/-- The alternation `a1|a2|...` of literal sequences. -/
def alternation (foldCase : Bool) (alts : List (List Char)) : RegularExpression Char :=
  (alts.map (literalSeq foldCase)).foldr (· + ·) 0

/-- Parsing of the modelled fragment of the RE2 syntax: an optional leading
flag group `(?i)` (case-insensitive from there to the end of the expression,
across `|`), then alternatives separated by `|`, each a sequence of literal
characters. `none` for an expression outside the fragment. -/
def regexpParse (expr : String) : Option (RegularExpression Char) :=
  let foldCase := "(?i)".data.isPrefixOf expr.data
  let rest := if foldCase then expr.data.drop 4 else expr.data
  let alts := rest.splitOn '|'
  if alts.all (fun alt => alt.all isLiteralChar) then
    some (alternation foldCase alts)
  else
    none

/-- Unanchored matching, as `MatchString` does it: some substring of the text
matches the expression. -/
def matchAnywhere (re : RegularExpression Char) (s : String) : Bool :=
  s.data.tails.any (fun t => t.inits.any (fun m => re.rmatch m))

/-- Model of `regexp.MustCompile` on the fragment of `regexpParse`; `none`
stands for an expression outside the fragment (every expression Go rejects
with a panic is outside it). -/
def regexpMustCompile (expr : String) : Option Regexp :=
  (regexpParse expr).map (fun re => { MatchString := matchAnywhere re })

/-! ## `filterRecords` (report1.go, lines 46-58) -/

/-- The loop of lines 51-55: a record is appended when the expression matches
its `Content`. -/
def filterLoop (regex : Regexp) (records : List Record) : List Record :=
  records.foldl
    (fun filteredRecords r =>
      if regex.MatchString r.Content then filteredRecords ++ [r] else filteredRecords)
    []

/-- `filterRecords`, over an implementation `MustCompile` of
`regexp.MustCompile`; `none` when `MustCompile` does not return (it panics). -/
def filterRecords (MustCompile : String → Option Regexp) (records : List Record)
    (pattern : String) : Option (List Record) :=
  match MustCompile ("(?i)" ++ pattern) with
  | none => none
  | some regex => some (filterLoop regex records)

/-! ## `text/template`: the fragment of the batch template

`text/template` is Go's standard library. The model covers templates made of
text, `{{.Field}}` and `{{range .}} ... {{end}}` with a body of text and
fields, executed on a slice of records. -/

/-- An item of the template lexer: text outside `{{ }}`, or the inside of an
action. -/
inductive Item where
  | text (s : List Char)
  | action (s : List Char)
  deriving DecidableEq, Repr

/-- The lexer: text runs to the next `{{`, an action to the next `}}`; an empty
text gives no item; an action left open is an error (`none`). The arguments
are: inside an action?, the characters of the current item (reversed), the
input. -/
def lexTemplate : Bool → List Char → List Char → Option (List Item)
  | false, acc, '{' :: '{' :: rest =>
    (lexTemplate true [] rest).map
      (fun items => if acc.isEmpty then items else Item.text acc.reverse :: items)
  | true, acc, '}' :: '}' :: rest =>
    (lexTemplate false [] rest).map (fun items => Item.action acc.reverse :: items)
  | inAction, acc, c :: rest => lexTemplate inAction (c :: acc) rest
  | false, acc, [] => some (if acc.isEmpty then [] else [Item.text acc.reverse])
  | true, _, [] => none

/-- A node without a body: text, copied to the output, or `{{.Name}}`, the
field `Name` of dot. -/
inductive Leaf where
  | text (s : String)
  | field (name : String)
  deriving DecidableEq, Repr

/-- A node of the parsed template: a leaf, or `{{range .}} body {{end}}`. -/
inductive TNode where
  | leaf (l : Leaf)
  | rangeDot (body : List Leaf)
  deriving DecidableEq, Repr

/-- The words of an action: its text split at blanks. -/
def actionWords (s : List Char) : List (List Char) :=
  (s.splitOnP (fun c => c == ' ' || c == '\t')).filter (fun w => !w.isEmpty)

/-- What an action of the fragment says. -/
inductive Action where
  | end_
  | rangeDot
  | field (name : String)
  deriving DecidableEq, Repr

/-- An identifier: a letter or underscore, then letters, digits and
underscores. -/
def isIdentifier (name : List Char) : Bool :=
  match name with
  | [] => false
  | c :: rest =>
    (c.isAlpha || c == '_') && rest.all (fun d => d.isAlphanum || d == '_')

/-- The actions of the fragment: `end`, `range .` and `.Name` with `Name` an
identifier; `none` for any other action. -/
def parseAction (s : List Char) : Option Action :=
  match actionWords s with
  | [w] =>
    if w = "end".data then some Action.end_
    else
      match w with
      | '.' :: name => if isIdentifier name then some (Action.field ⟨name⟩) else none
      | _ => none
  | [w, d] => if w = "range".data ∧ d = ".".data then some Action.rangeDot else none
  | _ => none

/-- The parser of the fragment. `openRange` is the body read so far of the
`range` that is open, if one is. A `range` inside a `range`, an `end` without
`range`, a `range` without `end` and an unknown action give `none`. -/
def parseItems : Option (List Leaf) → List Item → Option (List TNode)
  | none, [] => some []
  | some _, [] => none
  | openRange, Item.text s :: rest =>
    match openRange with
    | none => (parseItems none rest).map (fun ns => TNode.leaf (Leaf.text ⟨s⟩) :: ns)
    | some body => parseItems (some (body ++ [Leaf.text ⟨s⟩])) rest
  | openRange, Item.action s :: rest =>
    match parseAction s, openRange with
    | some (Action.field name), none =>
      (parseItems none rest).map (fun ns => TNode.leaf (Leaf.field name) :: ns)
    | some (Action.field name), some body => parseItems (some (body ++ [Leaf.field name])) rest
    | some Action.rangeDot, none => parseItems (some []) rest
    | some Action.end_, some body =>
      (parseItems none rest).map (fun ns => TNode.rangeDot body :: ns)
    | _, _ => none

/-- Model of `template.New(name).Parse(text)` on the fragment; `none` for a
text outside it (every text Go rejects is outside it). -/
def templateParse (text : String) : Option (List TNode) :=
  match lexTemplate false [] text.data with
  | none => none
  | some items => parseItems none items

/-- The value of `{{.Name}}` when dot is a `Record`: the field `Content`; a
`Record` has no other field, and Go reports an error for one. -/
def evalField (name : String) (dot : Record) : Except String String :=
  if name = "Content" then Except.ok dot.Content
  else Except.error ("can't evaluate field " ++ name ++ " in type report1.Record")

/-- Execution of a leaf with dot a `Record`: the text written to the output
(appended to `out`). A string value is printed as it is. -/
def execLeaf (out : String) (l : Leaf) (dot : Record) : Except String String :=
  match l with
  | Leaf.text s => Except.ok (out ++ s)
  | Leaf.field name =>
    match evalField name dot with
    | Except.ok v => Except.ok (out ++ v)
    | Except.error e => Except.error e

/-- Execution of a `range` body for one element. -/
def execBody (out : String) (body : List Leaf) (dot : Record) : Except String String :=
  body.foldlM (fun o l => execLeaf o l dot) out

/-- Execution of a node with dot the slice of records: text is copied, a
`range` runs its body once for each element in order (an empty slice gives
nothing), a field of a slice is an error. -/
def execNode (out : String) (n : TNode) (dot : List Record) : Except String String :=
  match n with
  | TNode.leaf (Leaf.text s) => Except.ok (out ++ s)
  | TNode.leaf (Leaf.field name) =>
    Except.error ("can't evaluate field " ++ name ++ " in type []report1.Record")
  | TNode.rangeDot body => dot.foldlM (fun o r => execBody o body r) out

/-- Model of `t.Execute(w, data)` for `data` a slice of records: the text
written to `w`. -/
def templateExecute (t : List TNode) (data : List Record) : Except String String :=
  t.foldlM (fun o n => execNode o n data) ""

/-! ## `buildTemplates`: constants and the batch loop (report1.go, lines 78-122) -/

/-- The package variable `scratch` (line 16); nothing assigns to it. -/
def scratch : String := "."

/-- Line 78. -/
def pattern : String := "cue|cuelang"

/-- Line 83. -/
def batchSize : Nat := 75

/-- The text of the template before `{{range .}}` (lines 92-104). -/
def tmplHeader : String :=
  "\nIn this request, please do not reply with code or code blocks.\n" ++
  "I'm asking that you summarize many people's opinions and\n" ++
  "experiences in a few paragraphs..\n" ++
  "\n" ++
  "This article is about Pkl, but please find mention of CUE\n" ++
  "language in the article.\n" ++
  "\n" ++
  "Please summarize the pros and cons for the use of CUE.\n" ++
  "\n" ++
  "For your reference, CUE and Cuelang are synonyms for the\n" ++
  "same language.\n" ++
  "\n"

/-- The template literal `tmpl` (lines 92-108). -/
def tmpl : String :=
  tmplHeader ++ "\x7b\x7brange .\x7d\x7d\n\x7b\x7b.Content\x7d\x7d\n\x7b\x7bend\x7d\x7d\n"

/-- Go `fmt.Sprintf("%02d", n)` for `n ≥ 0`: the decimal digits of `n`, padded
on the left with `0` to a width of at least two. -/
def sprintf02d (n : Nat) : String :=
  let digits := Nat.toDigits 10 n
  ⟨List.replicate (2 - digits.length) '0' ++ digits⟩

/-- Line 111: `fmt.Sprintf("%s/result_%02d.txt", scratch, i/batchSize+1)`. -/
def fileName (i : Nat) : String :=
  scratch ++ "/result_" ++ sprintf02d (i / batchSize + 1) ++ ".txt"

/-- Lines 86-90: `records[i:end]` with `end = min(i + batchSize, len(records))`. -/
def batchAt (records : List Record) (i : Nat) : List Record :=
  let end0 := i + batchSize
  let end1 := if end0 > records.length then records.length else end0
  (records.take end1).drop i

/-- The loop of lines 85-122 over a state `σ`, with lines 92-121 as `body`
(it gets `i` and the batch, and returns the error, if any, and the new state;
`none` when it does not return, as `template.Must` may). An error of the body
ends the loop with that error. The first argument bounds the number of
iterations; `none` when it is used up. -/
def batchLoop {σ : Type} (body : Nat → List Record → σ → Option (Option String × σ))
    (records : List Record) : Nat → Nat → σ → Option (Option String × σ)
  | 0, _, _ => none
  | fuel + 1, i, s =>
    if i < records.length then
      match body i (batchAt records i) s with
      | none => none
      | some (some err, s') => some (some err, s')
      | some (none, s') => batchLoop body records fuel (i + batchSize) s'
    else
      some (none, s)

/-- The body that only records what the loop hands to it: the file name of
line 111 and the batch of line 90. -/
def recordBatch (i : Nat) (batch : List Record) (log : List (String × List Record)) :
    Option (Option String × List (String × List Record)) :=
  some (none, log ++ [(fileName i, batch)])

/-- The batches of the loop in order, each with its file name. -/
def batches (records : List Record) : Option (List (String × List Record)) :=
  (batchLoop recordBatch records (records.length + 1) 0 []).map (fun r => r.2)

/-! ## `parseHTML` (report1.go, lines 204-224) -/

/-- Go `html.NodeType`. -/
inductive NodeType where
  | ErrorNode
  | TextNode
  | DocumentNode
  | ElementNode
  | CommentNode
  | DoctypeNode
  | RawNode
  deriving DecidableEq, Repr

/-- Go `html.Node`, as far as `parseHTML` reads it: `Type` (here `typ`), `Data`
and the children, which Go links by `FirstChild` and `NextSibling`. -/
inductive Node where
  | mk (typ : NodeType) (Data : String) (children : List Node)

/-- The field `Type` of a node. -/
def Node.typ : Node → NodeType
  | Node.mk t _ _ => t

/-- The field `Data` of a node. -/
def Node.Data : Node → String
  | Node.mk _ d _ => d

/-- The children of a node, from `FirstChild` along `NextSibling`. -/
def Node.children : Node → List Node
  | Node.mk _ _ cs => cs

mutual
/-- The closure `extractText` (lines 213-220), with the builder's text as an
argument and result: the `Data` of a text node is written, then the children
are visited. -/
def extractText (b : String) : Node → String
  | Node.mk t d cs => extractTextChildren (if t = NodeType.TextNode then b ++ d else b) cs
/-- The loop of lines 217-219 over the children. -/
def extractTextChildren (b : String) : List Node → String
  | [] => b
  | c :: cs => extractTextChildren (extractText b c) cs
end

/-- The body of an HTTP response as a reader: the bytes it delivers and the
error, if any, its reading ends with. -/
structure Body where
  data : String
  readErr : Option String
  deriving DecidableEq, Repr

/-- Model of `html.Parse(r)`: it fails only when reading `r` fails; otherwise
it builds a tree for whatever it read. `htmlParse` is the tree the library
builds for a text. -/
def htmlParseReader (htmlParse : String → Node) (r : Body) : Except String Node :=
  match r.readErr with
  | some e => Except.error e
  | none => Except.ok (htmlParse r.data)

/-- `parseHTML` over the library's tree builder `htmlParse`. -/
def parseHTML (htmlParse : String → Node) (r : Body) : Except String String :=
  match htmlParseReader htmlParse r with
  | Except.error err => Except.error err
  | Except.ok doc => Except.ok (extractText "" doc)

/-! ## The world outside the program

The file system, the network and the console. What the operating system and
the network decide (failures, the response to a request, the lines a scanner
returns) is the environment `Env`; what the program changes is the `World`. -/

/-- An HTTP response, as far as the program reads it. -/
structure Response where
  StatusCode : Nat
  Body : Body
  deriving DecidableEq, Repr

/-- What a `bufio.Scanner` with the default split function returned:
the tokens of the successive `Scan()` calls that returned true, and `Err()`
after the call that returned false. -/
structure Scanner where
  lines : List String
  err : Option String
  deriving DecidableEq, Repr

/-- A failed write: the number of characters written before the failure, and
the error. -/
structure WriteFailure where
  written : Nat
  err : String
  deriving DecidableEq, Repr

/-- The behaviour of the outside during one run. An error oracle gives for a
path the error of the operation on it, `none` when the operation succeeds. -/
structure Env where
  /-- The outcome of `http.Get(url)`. -/
  httpGet : String → Except String Response
  /-- The tree `html.Parse` builds for a text. -/
  htmlParse : String → Node
  /-- The scanner's outcome on a file with the given content. -/
  newScanner : String → Scanner
  /-- `os.Stat` fails for a reason other than absence. -/
  statErr : String → Option String
  /-- `os.Open` fails on an existing file. -/
  openErr : String → Option String
  /-- `os.Create` fails. -/
  createErr : String → Option String
  /-- `os.Mkdir` fails. -/
  mkdirErr : String → Option String
  /-- A write to the file fails. -/
  writeErr : String → Option WriteFailure

/-- The state the program can change: regular files with their content (the
first entry of a path counts), directories, the requests sent so far, and the
text printed to standard output. -/
structure World where
  files : List (String × String)
  dirs : List String
  requests : List String
  stdout : String
  deriving DecidableEq, Repr

/-- The content of the file at `path`, if there is one. -/
def World.readFile (w : World) (path : String) : Option String :=
  w.files.lookup path

/-- The world with `content` as the content of the file at `path`. -/
def World.setFile (w : World) (path content : String) : World :=
  { w with files := (path, content) :: w.files.filter (fun f => f.1 != path) }

/-- The outcome of `os.Stat`. -/
inductive StatResult where
  | ok
  | notExist
  | failed (err : String)
  deriving DecidableEq, Repr

/-- Model of `os.Stat(path)`: success for an existing file or directory, the
not-exist error for an absent path, another error when the environment says
so. -/
def stat (env : Env) (w : World) (path : String) : StatResult :=
  match env.statErr path with
  | some e => StatResult.failed e
  | none =>
    if (w.readFile path).isSome || w.dirs.contains path then StatResult.ok
    else StatResult.notExist

/-- Model of `os.Create(path)`: the file exists afterwards and is empty. -/
def create (env : Env) (w : World) (path : String) : Except String World :=
  match env.createErr path with
  | some e => Except.error e
  | none => Except.ok (w.setFile path "")

/-- Model of `os.Mkdir(path, perm)`. -/
def mkdir (env : Env) (w : World) (path : String) : Except String World :=
  match env.mkdirErr path with
  | some e => Except.error e
  | none => Except.ok { w with dirs := path :: w.dirs }

/-- Model of `os.Open(path)` for reading: the content of the file. -/
def openFile (env : Env) (w : World) (path : String) : Except String String :=
  match env.openErr path with
  | some e => Except.error e
  | none =>
    match w.readFile path with
    | some content => Except.ok content
    | none => Except.error ("open " ++ path ++ ": no such file or directory")

/-- Model of a write of `text` at the end of the file at `path`: all of it, or
on a failure the part written before it. -/
def writeString (env : Env) (w : World) (path text : String) : Option String × World :=
  let old := (w.readFile path).getD ""
  match env.writeErr path with
  | some f => (some f.err, w.setFile path (old ++ ⟨text.data.take f.written⟩))
  | none => (none, w.setFile path (old ++ text))

/-- Printing to standard output. -/
def World.print (w : World) (text : String) : World :=
  { w with stdout := w.stdout ++ text }

/-! ## The functions of the program on the world -/

/-- `parse` (lines 127-170): the records of the file `fname`, or an error. -/
def parse (env : Env) (fname : String) (w : World) : Except String (List Record) × World :=
  match openFile env w fname with
  | Except.error err => (Except.error ("error opening file: " ++ err), w)
  | Except.ok content =>
    let scanner := env.newScanner content
    let st := parseLoop ParseState.init scanner.lines
    let records := parseFlush st
    match scanner.err with
    | some err => (Except.error ("error scanning file: " ++ err), w)
    | none =>
      (Except.ok records,
        w.print ("Number of records in the file: " ++ toString records.length ++ "\n"))

/-- `fetchDataAndCache` (lines 172-202). -/
def fetchDataAndCache (env : Env) (url cacheFilePath : String) (w : World) :
    Option String × World :=
  match stat env w cacheFilePath with
  | StatResult.ok => (some ("data already cached in " ++ cacheFilePath), w)
  | _ =>
    let w1 := { w with requests := w.requests ++ [url] }
    match env.httpGet url with
    | Except.error err => (some ("error fetching data from " ++ url ++ ": " ++ err), w1)
    | Except.ok resp =>
      match create env w1 cacheFilePath with
      | Except.error err => (some ("error creating cache file: " ++ err), w1)
      | Except.ok w2 =>
        match parseHTML env.htmlParse resp.Body with
        | Except.error err => (some ("error parsing HTML: " ++ err), w2)
        | Except.ok textContent =>
          match writeString env w2 cacheFilePath textContent with
          | (some err, w3) =>
            (some ("error writing data to " ++ cacheFilePath ++ ": " ++ err), w3)
          | (none, w3) =>
            (none, w3.print ("Data fetched and cached as text in " ++ cacheFilePath ++ "\n"))

/-- `ensureScratchDirectory` (lines 60-69). -/
def ensureScratchDirectory (env : Env) (w : World) : Option String × World :=
  match stat env w scratch with
  | StatResult.notExist =>
    match mkdir env w scratch with
    | Except.error err => (some ("error creating 'scratch' directory: " ++ err), w)
    | Except.ok w1 => (none, w1)
  | _ => (none, w)

/-- Lines 92-121, the body of the batch loop: parse the template (`none` when
`template.Must` panics), create the file, execute the template into it. -/
def writeBatch (env : Env) (i : Nat) (batch : List Record) (w : World) :
    Option (Option String × World) :=
  match templateParse tmpl with
  | none => none
  | some t =>
    match create env w (fileName i) with
    | Except.error err => some (some ("error creating output file: " ++ err), w)
    | Except.ok w1 =>
      match templateExecute t batch with
      | Except.error err => some (some ("error executing template: " ++ err), w1)
      | Except.ok text =>
        match writeString env w1 (fileName i) text with
        | (some err, w2) => some (some ("error executing template: " ++ err), w2)
        | (none, w2) => some (none, w2)

/-- `buildTemplates` (lines 71-125); `none` when it does not return. -/
def buildTemplates (env : Env) (w : World) : Option (Option String × World) :=
  match parse env "data.txt" w with
  | (Except.error err, w1) => some (some err, w1)
  | (Except.ok records, w1) =>
    match filterRecords regexpMustCompile records pattern with
    | none => none
    | some filteredRecords =>
      batchLoop (writeBatch env) filteredRecords (filteredRecords.length + 1) 0 w1

/-- `RunReport1` (lines 22-44); `none` when it does not return. -/
def RunReport1 (env : Env) (w : World) : Option (Option String × World) :=
  match fetchDataAndCache env "https://news.ycombinator.com/item?id=39232976" "data.txt" w with
  | (some err, w1) => some (some ("error fetching data: " ++ err), w1)
  | (none, w1) =>
    match ensureScratchDirectory env w1 with
    | (some err, w2) => some (some ("error ensuring scratch directory: " ++ err), w2)
    | (none, w2) =>
      match buildTemplates env w2 with
      | none => none
      | some (some err, w3) => some (some ("error building templates: " ++ err), w3)
      | some (none, w3) => some (none, w3)

/-! ## Specification of `parse` -/

/-- The text a segment of lines leaves in the builder that held `b` (lines
152-153): each line, followed by a newline. -/
def accumulateFrom (b : String) (seg : List String) : String :=
  seg.foldl (fun acc line => (acc ++ line) ++ "\n") b

/-- The accumulation of a segment's lines in order, from an empty builder. -/
def accumulate (seg : List String) : String :=
  accumulateFrom "" seg

/-- The segments of the input: the lines up to and including the first
sentinel line are dropped, the rest is split at every sentinel line. No
segment when there is no sentinel line. -/
def segments (lines : List String) : List (List String) :=
  match lines.dropWhile (fun l => !isSentinel l) with
  | [] => []
  | _ :: rest => rest.splitOnP isSentinel

/-- The records of a sequence of segment contents: one for each content but
the last, and one for the last when it is not empty. -/
def emitRecords (contents : List String) : List Record :=
  contents.dropLast.map (fun c => { Content := c }) ++
    (match contents.getLast? with
     | some c => if c ≠ "" then [{ Content := c }] else []
     | none => [])

/-- The record sequence the specification describes for the input lines. -/
def parseSpec (lines : List String) : List Record :=
  emitRecords ((segments lines).map accumulate)

/-- The contents of the segments when the builder holds `b` at the start of
the first one. -/
def contentsFrom (b : String) : List (List String) → List String
  | [] => []
  | seg :: more => accumulateFrom b seg :: more.map accumulate

/-- The records `parse` has in `records` at line 163, for the lines the
scanner returned (lines 134-161). -/
def parseLines (lines : List String) : List Record :=
  parseFlush (parseLoop ParseState.init lines)

/-- Model of `bufio.ScanLines` on a text that is read to its end: the text is
cut at every newline, one carriage return before a newline is dropped, and
the text after the last newline is a line when it is not empty. -/
def scanLines (content : String) : List String :=
  let pieces := content.data.splitOn '\n'
  let pieces := if pieces.getLast? = some [] then pieces.dropLast else pieces
  pieces.map (fun l => if l.getLast? = some '\r' then ⟨l.dropLast⟩ else ⟨l⟩)

/-- An environment in which nothing fails: the network is the page `page`, the
tree of a text is a document with one text node, and the scanner returns
the lines of the file. -/
def calmEnv (page : String) : Env :=
  { httpGet := fun _ => Except.ok { StatusCode := 200, Body := { data := page, readErr := none } },
    htmlParse := fun text =>
      Node.mk NodeType.DocumentNode "" [Node.mk NodeType.TextNode text []],
    newScanner := fun content => { lines := scanLines content, err := none },
    statErr := fun _ => none,
    openErr := fun _ => none,
    createErr := fun _ => none,
    mkdirErr := fun _ => none,
    writeErr := fun _ => none }

/-- A world with the file `data.txt` holding `content` and the directory `.`. -/
def cachedWorld (content : String) : World :=
  { files := [("data.txt", content)], dirs := ["."], requests := [], stdout := "" }

/-- The letters c, u, e, each in either case. -/
def isCue (a b c : Char) : Bool :=
  (a == 'c' || a == 'C') && (b == 'u' || b == 'U') && (c == 'e' || c == 'E')

/-- The text holds somewhere the letters c, u, e in a row, each in either
case. -/
def containsCue : List Char → Bool
  | [] => false
  | a :: rest =>
    (match rest with
      | b :: c :: _ => isCue a b c
      | _ => false) || containsCue rest

/-- The number of batches the specification gives for `n` records: `n / 75`
rounded up. -/
def numBatches (n : Nat) : Nat :=
  (n + 74) / 75

/-- The slice the specification gives for the batch of 0-based index `k`: the
records at the positions from `75 * k` up to but excluding
`min (75 * (k + 1)) n`. -/
def batchSlice (records : List Record) (k : Nat) : List Record :=
  (records.take (min (75 * (k + 1)) records.length)).drop (75 * k)

/-- The text the specification gives for a batch: the header, then for each
record a newline, its `Content` and a newline, then one newline. -/
def renderSpec (batch : List Record) : String :=
  (batch.foldl (fun out r => ((out ++ "\n") ++ r.Content) ++ "\n") tmplHeader) ++ "\n"

/-- The tree of the template literal: the header, the `range` with its body,
and the newline after `{{end}}`. -/
def batchTemplate : List TNode :=
  [TNode.leaf (Leaf.text tmplHeader),
   TNode.rangeDot [Leaf.text "\n", Leaf.field "Content", Leaf.text "\n"],
   TNode.leaf (Leaf.text "\n")]

/-- The number a sequence of decimal digit characters writes. -/
def decimalValue (cs : List Char) : Nat :=
  cs.foldl (fun acc c => 10 * acc + (c.toNat - '0'.toNat)) 0

mutual
/-- The nodes of a tree in depth-first pre-order (document order): the node,
then the nodes of its children from the first to the last. -/
def preorder : Node → List Node
  | Node.mk t d cs => Node.mk t d cs :: preorderChildren cs
/-- The nodes of a sequence of trees in pre-order. -/
def preorderChildren : List Node → List Node
  | [] => []
  | c :: cs => preorder c ++ preorderChildren cs
end

/-- The text the specification gives for a tree: the `Data` of its text
nodes, in pre-order, one after the other with nothing between them. -/
def textContent (doc : Node) : String :=
  String.join (((preorder doc).filter (fun n => n.typ = NodeType.TextNode)).map Node.Data)

/-- An environment like `calmEnv page` in which every `os.Stat` fails with a
permission error. -/
def deniedEnv (page : String) : Env :=
  { calmEnv page with statErr := fun _ => some "permission denied" }

/-- The environment `env` with `resp` as the response to every request. -/
def withResponse (env : Env) (resp : Response) : Env :=
  { env with httpGet := fun _ => Except.ok resp }

/-- The invariant of the loop of `parse`: a builder that is not empty means
that a record is open. -/
def parseInv (st : ParseState) : Prop :=
  st.currentRecord ≠ "" → st.inRecord = true

/-! # Theorems -/

/-! ## Lemmas on `parse` -/

theorem string_length_pos_iff (s : String) : s.length > 0 ↔ s ≠ "" := by
  rw [gt_iff_lt, String.length, List.length_pos, ne_eq, ne_eq, String.ext_iff]

theorem parseStep_idle (line : String) (h : isSentinel line = false) :
    parseStep ParseState.init line = ParseState.init := by
  simp [parseStep, h, ParseState.init]

theorem parseLoop_dropWhile (lines : List String) :
    parseLoop ParseState.init lines =
      parseLoop ParseState.init (lines.dropWhile (fun l => !isSentinel l)) := by
  induction lines with
  | nil => rfl
  | cons l rest ih =>
    cases h : isSentinel l
    · simp only [List.dropWhile_cons, h, Bool.not_false, if_true]
      rw [← ih]
      simp [parseLoop, parseStep_idle l h]
    · simp [List.dropWhile_cons, h]

theorem contentsFrom_empty (segs : List (List String)) :
    contentsFrom "" segs = segs.map accumulate := by
  cases segs <;> rfl

theorem emitRecords_cons (c : String) (cs : List String) (h : cs ≠ []) :
    emitRecords (c :: cs) = { Content := c } :: emitRecords cs := by
  obtain ⟨d, ds, rfl⟩ := List.exists_cons_of_ne_nil h
  simp [emitRecords, List.dropLast, List.getLast?_cons_cons]

theorem parseLoop_open (rest : List String) (recs : List Record) (b : String) :
    parseFlush (parseLoop { records := recs, currentRecord := b, inRecord := true } rest) =
      recs ++ emitRecords (contentsFrom b (rest.splitOnP isSentinel)) := by
  induction rest generalizing recs b with
  | nil =>
    simp only [parseLoop, List.foldl_nil, parseFlush, List.splitOnP_nil, contentsFrom,
      accumulateFrom, List.map_nil, emitRecords, List.dropLast, List.getLast?_singleton]
    by_cases hb : b = ""
    · subst hb; simp
    · have : b.length > 0 := (string_length_pos_iff b).2 hb
      simp [this, hb]
  | cons l rest ih =>
    have hne : rest.splitOnP isSentinel ≠ [] := List.splitOnP_ne_nil _ _
    cases h : isSentinel l
    · have hstep : parseStep { records := recs, currentRecord := b, inRecord := true } l =
          { records := recs, currentRecord := (b ++ l) ++ "\n", inRecord := true } := by
        simp [parseStep, h]
      rw [parseLoop, List.foldl_cons, hstep, ← parseLoop, ih, List.splitOnP_cons]
      simp only [h, Bool.false_eq_true, if_false]
      obtain ⟨seg, more, hs⟩ := List.exists_cons_of_ne_nil hne
      rw [hs]
      simp [List.modifyHead, contentsFrom, accumulateFrom]
    · have hstep : parseStep { records := recs, currentRecord := b, inRecord := true } l =
          { records := recs ++ [{ Content := b }], currentRecord := "", inRecord := true } := by
        simp [parseStep, h]
      rw [parseLoop, List.foldl_cons, hstep, ← parseLoop, ih, List.splitOnP_cons]
      simp only [h, if_true]
      rw [contentsFrom_empty]
      have : contentsFrom b ([] :: rest.splitOnP isSentinel) =
          b :: (rest.splitOnP isSentinel).map accumulate := rfl
      rw [this, emitRecords_cons _ _ (by simpa using hne)]
      simp

theorem parseFlush_parseLoop (lines : List String) :
    parseFlush (parseLoop ParseState.init lines) = parseSpec lines := by
  rw [parseLoop_dropWhile, parseSpec, segments]
  cases hd : lines.dropWhile (fun l => !isSentinel l) with
  | nil => rfl
  | cons s rest =>
    have hs : isSentinel s = true := by
      have := List.head_dropWhile_not (fun l => !isSentinel l) lines
      simpa [hd] using this
    have hstep : parseStep ParseState.init s =
        { records := [], currentRecord := "", inRecord := true } := by
      simp [parseStep, hs, ParseState.init]
    rw [parseLoop, List.foldl_cons, hstep, ← parseLoop, parseLoop_open, contentsFrom_empty]
    simp

theorem splitOnP_no_sep {α : Type} (p : α → Bool) (l : List α) :
    ∀ seg ∈ l.splitOnP p, ∀ x ∈ seg, p x = false := by
  induction l with
  | nil => simp [List.splitOnP_nil]
  | cons a l ih =>
    rw [List.splitOnP_cons]
    have hne : l.splitOnP p ≠ [] := List.splitOnP_ne_nil _ _
    obtain ⟨seg0, more, hs⟩ := List.exists_cons_of_ne_nil hne
    rw [hs] at ih ⊢
    by_cases ha : p a = true
    · simp only [ha, if_true]
      intro seg hseg x hx
      rcases List.mem_cons.1 hseg with rfl | hseg
      · simp at hx
      · exact ih seg hseg x hx
    · simp only [ha, Bool.false_eq_true, if_false, List.modifyHead]
      intro seg hseg x hx
      rcases List.mem_cons.1 hseg with rfl | hseg
      · rcases List.mem_cons.1 hx with rfl | hx
        · simpa using ha
        · exact ih seg0 (List.mem_cons_self _ _) x hx
      · exact ih seg (List.mem_cons_of_mem _ hseg) x hx

theorem parse_of_scan (env : Env) (w : World) (fname content : String) (lines : List String)
    (hopen : openFile env w fname = Except.ok content)
    (hscan : env.newScanner content = { lines := lines, err := none }) :
    parse env fname w =
      (Except.ok (parseLines lines),
        w.print ("Number of records in the file: " ++
          toString (parseLines lines).length ++ "\n")) := by
  simp [parse, hopen, hscan, parseLines]

theorem parse_eq_parseSpec (env : Env) (w : World) (fname content : String)
    (lines : List String) (hopen : openFile env w fname = Except.ok content)
    (hscan : env.newScanner content = { lines := lines, err := none }) :
    (parse env fname w).1 = Except.ok (parseSpec lines) := by
  rw [parse_of_scan env w fname content lines hopen hscan, parseLines, parseFlush_parseLoop]

/-- C1: when the file opens and the scanner returns `lines` without an error,
`parse` returns no error and the records of the specification: the lines up
to and including the first sentinel line are dropped, the rest is split at
every sentinel line, every segment but the last gives a record, the last one
gives a record when its accumulated content is not empty, each `Content` is
the accumulation of the segment's lines, and no segment holds a sentinel
line. -/
theorem parse_records (env : Env) (w : World) (fname content : String) (lines : List String)
    (hopen : openFile env w fname = Except.ok content)
    (hscan : env.newScanner content = { lines := lines, err := none }) :
    (parse env fname w).1 = Except.ok (parseSpec lines) ∧
      ∀ seg ∈ segments lines, ∀ l ∈ seg, isSentinel l = false := by
  refine ⟨parse_eq_parseSpec env w fname content lines hopen hscan, ?_⟩
  · unfold segments
    split
    · simp
    · exact splitOnP_no_sep isSentinel _

theorem parse_records_witness :
    openFile (calmEnv "") (cachedWorld "x\nreply\nb\nc\n reply \nreply\nd\n") "data.txt" =
        Except.ok "x\nreply\nb\nc\n reply \nreply\nd\n" ∧
      (calmEnv "").newScanner "x\nreply\nb\nc\n reply \nreply\nd\n" =
        { lines := ["x", "reply", "b", "c", " reply ", "reply", "d"], err := none } ∧
      (parse (calmEnv "") "data.txt" (cachedWorld "x\nreply\nb\nc\n reply \nreply\nd\n")).1 =
        Except.ok (parseSpec ["x", "reply", "b", "c", " reply ", "reply", "d"]) ∧
      parseSpec ["x", "reply", "b", "c", " reply ", "reply", "d"] =
        [{ Content := "b\nc\n" }, { Content := "" }, { Content := "d\n" }] :=
  ⟨rfl, rfl,
    (parse_records (calmEnv "") (cachedWorld "x\nreply\nb\nc\n reply \nreply\nd\n") "data.txt"
      "x\nreply\nb\nc\n reply \nreply\nd\n"
      ["x", "reply", "b", "c", " reply ", "reply", "d"] rfl rfl).1,
    by decide⟩

/-! ## Counting records -/

theorem splitOnP_append_last {α : Type} (p : α → Bool) (as xs : List α) (sep : α)
    (hsep : p sep = true) (hxs : ∀ x ∈ xs, p x = false) :
    (as ++ sep :: xs).splitOnP p = as.splitOnP p ++ [xs] := by
  induction as with
  | nil =>
    have h1 : xs.splitOnP p = [xs] := List.splitOnP_eq_single p xs (by simpa using hxs)
    simp [List.splitOnP_cons, hsep, h1, List.splitOnP_nil]
  | cons a as ih =>
    have hne : as.splitOnP p ≠ [] := List.splitOnP_ne_nil _ _
    obtain ⟨seg0, more, hs⟩ := List.exists_cons_of_ne_nil hne
    rw [List.cons_append, List.splitOnP_cons, ih, List.splitOnP_cons, hs]
    by_cases ha : p a = true
    · simp [ha]
    · simp [ha, List.modifyHead]

theorem length_splitOnP {α : Type} (p : α → Bool) (l : List α) :
    (l.splitOnP p).length = l.countP p + 1 := by
  induction l with
  | nil => simp [List.splitOnP_nil]
  | cons a l ih =>
    have hne : l.splitOnP p ≠ [] := List.splitOnP_ne_nil _ _
    obtain ⟨seg0, more, hs⟩ := List.exists_cons_of_ne_nil hne
    rw [List.splitOnP_cons]
    by_cases ha : p a = true
    · simp [ha, ih]
    · rw [hs] at ih
      simp [ha, hs, List.modifyHead] at ih ⊢
      omega

theorem segments_append_last (pre tail : List String) (s : String)
    (hs : isSentinel s = true) (htail : ∀ l ∈ tail, isSentinel l = false) :
    ∃ init, segments (pre ++ s :: tail) = init ++ [tail] ∧
      init.length + 1 = (pre ++ s :: tail).countP isSentinel := by
  induction pre with
  | nil =>
    refine ⟨[], ?_, ?_⟩
    · have h1 : tail.splitOnP isSentinel = [tail] :=
        List.splitOnP_eq_single isSentinel tail (by simpa using htail)
      simp [segments, List.dropWhile_cons, hs, h1]
    · have h0 : tail.countP isSentinel = 0 := by
        rw [List.countP_eq_zero]; simpa using htail
      simp [List.countP_cons, hs, h0]
  | cons a pre ih =>
    by_cases ha : isSentinel a = true
    · refine ⟨pre.splitOnP isSentinel, ?_, ?_⟩
      · simp [segments, List.dropWhile_cons, ha, splitOnP_append_last isSentinel pre tail s hs htail]
      · have h0 : tail.countP isSentinel = 0 := by
          rw [List.countP_eq_zero]; simpa using htail
        simp [List.countP_cons, List.countP_append, ha, hs, h0, length_splitOnP]
    · obtain ⟨init, h1, h2⟩ := ih
      refine ⟨init, ?_, ?_⟩
      · rw [← h1]
        simp [segments, List.dropWhile_cons, ha]
      · rw [h2]
        simp [List.countP_cons, ha]

theorem accumulateFrom_length (seg : List String) (b : String) :
    b.length + seg.length ≤ (accumulateFrom b seg).length := by
  induction seg generalizing b with
  | nil => simp [accumulateFrom]
  | cons l seg ih =>
    have := ih ((b ++ l) ++ "\n")
    simp only [accumulateFrom, List.foldl_cons, List.length_cons] at this ⊢
    simp only [String.length_append] at this
    have h1 : "\n".length = 1 := rfl
    omega

theorem accumulate_ne_empty (seg : List String) (h : seg ≠ []) : accumulate seg ≠ "" := by
  have h1 := accumulateFrom_length seg ""
  have h2 : 0 < seg.length := List.length_pos.2 h
  intro h3
  rw [accumulate] at h3
  rw [h3] at h1
  have h4 : "".length = 0 := rfl
  omega

theorem emitRecords_concat (cs : List String) (c : String) (hc : c ≠ "") :
    emitRecords (cs ++ [c]) = cs.map (fun x => { Content := x }) ++ [{ Content := c }] := by
  simp [emitRecords, hc]

/-- C2 (amended): when the lines hold exactly `N` sentinel lines and the lines
after the last one are not empty, `parse` returns exactly `N` records: one
for each of the `N - 1` segments between consecutive sentinel lines, in
order, and a last one for the tail. -/
theorem parse_count (env : Env) (w : World) (fname content : String) (N : Nat)
    (pre tail : List String) (s : String)
    (hopen : openFile env w fname = Except.ok content)
    (hscan : env.newScanner content = { lines := pre ++ s :: tail, err := none })
    (hs : isSentinel s = true) (htail : ∀ l ∈ tail, isSentinel l = false)
    (hne : tail ≠ []) (hN : (pre ++ s :: tail).countP isSentinel = N) :
    ∃ (between : List (List String)) (recs : List Record),
      segments (pre ++ s :: tail) = between ++ [tail] ∧
      between.length + 1 = N ∧
      (parse env fname w).1 = Except.ok recs ∧
      recs = between.map (fun seg => { Content := accumulate seg }) ++
        [{ Content := accumulate tail }] ∧
      recs.length = N := by
  obtain ⟨between, h1, h2⟩ := segments_append_last pre tail s hs htail
  have h3 : parseSpec (pre ++ s :: tail) =
      between.map (fun seg => { Content := accumulate seg }) ++
        [{ Content := accumulate tail }] := by
    rw [parseSpec, h1, List.map_append, List.map_singleton,
      emitRecords_concat _ _ (accumulate_ne_empty tail hne), List.map_map]
    rfl
  refine ⟨between, parseSpec (pre ++ s :: tail), h1, by omega,
    parse_eq_parseSpec env w fname content _ hopen hscan, h3, ?_⟩
  rw [h3]
  simp
  omega

theorem parse_count_witness :
    ∃ (between : List (List String)) (recs : List Record),
      segments ["x", "reply", "b", "reply", "d"] = between ++ [["d"]] ∧
      between.length + 1 = 2 ∧
      (parse (calmEnv "") "data.txt" (cachedWorld "x\nreply\nb\nreply\nd\n")).1 =
        Except.ok recs ∧
      recs = between.map (fun seg => { Content := accumulate seg }) ++
        [{ Content := accumulate ["d"] }] ∧
      recs.length = 2 :=
  parse_count (calmEnv "") (cachedWorld "x\nreply\nb\nreply\nd\n") "data.txt"
    "x\nreply\nb\nreply\nd\n" 2 ["x", "reply", "b"] ["d"] "reply" rfl rfl (by decide)
    (by decide) (by decide) (by decide)

/-- C2 as stated fails: the input `reply`, `x` has one sentinel line (`N = 1`)
and a non-empty tail, and `parse` returns one record, not `N + 1 = 2`. -/
theorem parse_count_counterexample :
    (["reply", "x"] : List String).countP isSentinel = 1 ∧
      (∀ l ∈ (["x"] : List String), isSentinel l = false) ∧
      (calmEnv "").newScanner "reply\nx\n" = { lines := ["reply", "x"], err := none } ∧
      (parse (calmEnv "") "data.txt" (cachedWorld "reply\nx\n")).1 =
        Except.ok [{ Content := "x\n" }] ∧
      ¬ ∃ recs, (parse (calmEnv "") "data.txt" (cachedWorld "reply\nx\n")).1 = Except.ok recs ∧
        recs.length = 1 + 1 := by
  refine ⟨by decide, by decide, rfl, rfl, ?_⟩
  rintro ⟨recs, h1, h2⟩
  have h3 : (parse (calmEnv "") "data.txt" (cachedWorld "reply\nx\n")).1 =
      Except.ok [{ Content := "x\n" }] := rfl
  rw [h3] at h1
  injection h1 with h1
  rw [← h1] at h2
  simp at h2

/-! ## Lines before the first sentinel -/

theorem parseLines_append_of_no_sentinel (pre rest : List String)
    (hpre : ∀ l ∈ pre, isSentinel l = false) :
    parseLines (pre ++ rest) = parseLines rest := by
  induction pre with
  | nil => rfl
  | cons a pre ih =>
    have ha : isSentinel a = false := hpre a (List.mem_cons_self _ _)
    have ih1 := ih (fun l hl => hpre l (List.mem_cons_of_mem _ hl))
    simp only [parseLines, parseLoop, List.cons_append, List.foldl_cons,
      parseStep_idle a ha] at ih1 ⊢
    exact ih1

/-- C8: when the file read holds the lines `pre ++ rest` and no line of `pre`
is a sentinel line, `parse` returns no error and the records of `rest`
alone: the same result as `parse` on any file, in any world, that holds the
lines `rest` (for every `rest`, so also for one that is empty or begins with
a sentinel line). In particular, on an input without a sentinel line, empty
or not, `parse` returns no record and no error. -/
theorem parse_leading_lines_ignored (env : Env) (w : World) (f1 c1 : String)
    (pre rest : List String)
    (hopen1 : openFile env w f1 = Except.ok c1)
    (hscan1 : env.newScanner c1 = { lines := pre ++ rest, err := none })
    (hpre : ∀ l ∈ pre, isSentinel l = false) :
    (parse env f1 w).1 = Except.ok (parseLines rest) ∧
      (∀ (env2 : Env) (w2 : World) (f2 c2 : String),
        openFile env2 w2 f2 = Except.ok c2 →
        env2.newScanner c2 = { lines := rest, err := none } →
        (parse env f1 w).1 = (parse env2 f2 w2).1) ∧
      (rest = [] → (parse env f1 w).1 = Except.ok []) := by
  have h1 : (parse env f1 w).1 = Except.ok (parseLines rest) := by
    rw [parse_of_scan env w f1 c1 _ hopen1 hscan1,
      parseLines_append_of_no_sentinel pre rest hpre]
  refine ⟨h1, ?_, ?_⟩
  · intro env2 w2 f2 c2 hopen2 hscan2
    rw [h1, parse_of_scan env2 w2 f2 c2 _ hopen2 hscan2]
  · rintro rfl
    rw [h1]
    rfl

theorem parse_leading_lines_ignored_witness :
    ((parse (calmEnv "") "a.txt"
        { files := [("a.txt", "x\ny\nreply\nb\n"), ("b.txt", "reply\nb\n")], dirs := [],
          requests := [], stdout := "" }).1 =
      (parse (calmEnv "") "b.txt"
        { files := [("a.txt", "x\ny\nreply\nb\n"), ("b.txt", "reply\nb\n")], dirs := [],
          requests := [], stdout := "" }).1) ∧
    (parse (calmEnv "") "data.txt" (cachedWorld "x\ny\n")).1 = Except.ok [] ∧
    (parse (calmEnv "") "data.txt" (cachedWorld "")).1 = Except.ok [] :=
  ⟨(parse_leading_lines_ignored (calmEnv "")
      { files := [("a.txt", "x\ny\nreply\nb\n"), ("b.txt", "reply\nb\n")], dirs := [],
        requests := [], stdout := "" }
      "a.txt" "x\ny\nreply\nb\n" ["x", "y"] ["reply", "b"] rfl rfl (by decide)).2.1
      (calmEnv "")
      { files := [("a.txt", "x\ny\nreply\nb\n"), ("b.txt", "reply\nb\n")], dirs := [],
        requests := [], stdout := "" }
      "b.txt" "reply\nb\n" rfl rfl,
    (parse_leading_lines_ignored (calmEnv "") (cachedWorld "x\ny\n") "data.txt" "x\ny\n"
      ["x", "y"] [] rfl rfl (by decide)).2.2 rfl,
    (parse_leading_lines_ignored (calmEnv "") (cachedWorld "") "data.txt" ""
      [] [] rfl rfl (by decide)).2.2 rfl⟩

/-! ## `filterRecords` -/

theorem filterLoop_foldl (regex : Regexp) (records acc : List Record) :
    records.foldl
        (fun filteredRecords r =>
          if regex.MatchString r.Content then filteredRecords ++ [r] else filteredRecords)
        acc =
      acc ++ records.filter (fun r => regex.MatchString r.Content) := by
  induction records generalizing acc with
  | nil => simp
  | cons r records ih =>
    rw [List.foldl_cons, ih]
    by_cases h : regex.MatchString r.Content = true
    · simp [h, List.filter_cons]
    · simp [h, List.filter_cons]

theorem filterLoop_eq_filter (regex : Regexp) (records : List Record) :
    filterLoop regex records = records.filter (fun r => regex.MatchString r.Content) := by
  rw [filterLoop, filterLoop_foldl, List.nil_append]

theorem filterRecords_of_compile (MustCompile : String → Option Regexp)
    (records : List Record) (pattern : String) (regex : Regexp)
    (hcompile : MustCompile ("(?i)" ++ pattern) = some regex) :
    filterRecords MustCompile records pattern =
      some (records.filter (fun r => regex.MatchString r.Content)) := by
  simp [filterRecords, hcompile, filterLoop_eq_filter]

/-- C4: for every pattern that compiles, with whatever expression `regex`
results, `filterRecords` returns the input sequence without the records whose
`Content` the expression does not match: the kept records are the matching
ones, unchanged, in the order of the input, none added and none repeated (the
result is a sublist of the input). -/
theorem filterRecords_filter (MustCompile : String → Option Regexp) (records : List Record)
    (pattern : String) (regex : Regexp)
    (hcompile : MustCompile ("(?i)" ++ pattern) = some regex) :
    filterRecords MustCompile records pattern =
        some (records.filter (fun r => regex.MatchString r.Content)) ∧
      (records.filter (fun r => regex.MatchString r.Content)).Sublist records := by
  exact ⟨filterRecords_of_compile MustCompile records pattern regex hcompile,
    List.filter_sublist _⟩

theorem filterRecords_filter_witness :
    filterRecords (fun _ => some { MatchString := fun s => s.length == 1 })
        [{ Content := "a" }, { Content := "bc" }, { Content := "d" }] "x" =
      some ([{ Content := "a" }, { Content := "bc" }, { Content := "d" }].filter
        (fun r => r.Content.length == 1)) :=
  (filterRecords_filter (fun _ => some { MatchString := fun s => s.length == 1 })
    [{ Content := "a" }, { Content := "bc" }, { Content := "d" }] "x"
    { MatchString := fun s => s.length == 1 } rfl).1

/-! ## The modelled expressions and their languages -/

theorem mem_matches_literalChar (c : Char) (m : List Char) :
    m ∈ (literalChar true c).matches' ↔ ∃ a ∈ foldOrbit c, m = [a] := by
  simp only [literalChar, if_true]
  generalize foldOrbit c = orbit
  induction orbit with
  | nil => simp [RegularExpression.matches'_zero]
  | cons a orbit ih =>
    simp only [List.map_cons, List.foldr_cons, RegularExpression.matches'_add,
      Language.mem_add, RegularExpression.matches'_char, ih, List.mem_cons]
    constructor
    · rintro (h | ⟨b, hb, rfl⟩)
      · exact ⟨a, Or.inl rfl, h⟩
      · exact ⟨b, Or.inr hb, rfl⟩
    · rintro ⟨b, rfl | hb, rfl⟩
      · exact Or.inl rfl
      · exact Or.inr ⟨b, hb, rfl⟩

theorem mem_matches_literalSeq (cs : List Char) (m : List Char) :
    m ∈ (literalSeq true cs).matches' ↔ List.Forall₂ (fun c a => a ∈ foldOrbit c) cs m := by
  induction cs generalizing m with
  | nil =>
    simp only [literalSeq, List.map_nil, List.foldr_nil, RegularExpression.matches'_epsilon,
      Language.mem_one, List.forall₂_nil_left_iff]
  | cons c cs ih =>
    have hseq : literalSeq true (c :: cs) = literalChar true c * literalSeq true cs := rfl
    rw [hseq, RegularExpression.matches'_mul, Language.mem_mul]
    constructor
    · rintro ⟨x, hx, y, hy, rfl⟩
      obtain ⟨a, ha, rfl⟩ := (mem_matches_literalChar c x).1 hx
      exact List.Forall₂.cons ha ((ih y).1 hy)
    · intro h
      cases h with
      | cons ha hrest =>
        rename_i a y
        exact ⟨[a], (mem_matches_literalChar c [a]).2 ⟨a, ha, rfl⟩, y, (ih y).2 hrest, rfl⟩

theorem mem_matches_alternation (alts : List (List Char)) (m : List Char) :
    m ∈ (alternation true alts).matches' ↔
      ∃ alt ∈ alts, List.Forall₂ (fun c a => a ∈ foldOrbit c) alt m := by
  induction alts with
  | nil => simp [alternation, RegularExpression.matches'_zero]
  | cons alt alts ih =>
    have halt : alternation true (alt :: alts) = literalSeq true alt + alternation true alts :=
      rfl
    rw [halt, RegularExpression.matches'_add, Language.mem_add, ih, mem_matches_literalSeq]
    simp

theorem matchAnywhere_iff (re : RegularExpression Char) (s : String) :
    matchAnywhere re s = true ↔
      ∃ before m after, s.data = before ++ m ++ after ∧ m ∈ re.matches' := by
  simp only [matchAnywhere, List.any_eq_true, List.mem_tails, List.mem_inits,
    RegularExpression.rmatch_iff_matches']
  constructor
  · rintro ⟨t, ⟨before, hb⟩, m, ⟨after, ha⟩, hm⟩
    exact ⟨before, m, after, by rw [← hb, ← ha, List.append_assoc], hm⟩
  · rintro ⟨before, m, after, hs, hm⟩
    exact ⟨m ++ after, ⟨before, by rw [hs, List.append_assoc]⟩, m, ⟨after, rfl⟩, hm⟩

theorem containsCue_unfold (a : Char) (rest : List Char) :
    containsCue (a :: rest) =
      ((match rest with
        | b :: c :: _ => isCue a b c
        | _ => false) || containsCue rest) := by
  rfl

theorem containsCue_cons (a : Char) (rest : List Char) (h : containsCue rest = true) :
    containsCue (a :: rest) = true := by
  rw [containsCue_unfold, h, Bool.or_true]

theorem containsCue_head (a b c : Char) (after : List Char) (h : isCue a b c = true) :
    containsCue (a :: b :: c :: after) = true := by
  rw [containsCue_unfold]
  simp only [h, Bool.true_or]

theorem containsCue_iff (s : List Char) :
    containsCue s = true ↔
      ∃ before a b c after, s = before ++ a :: b :: c :: after ∧ isCue a b c = true := by
  constructor
  · intro h
    induction s with
    | nil => simp [containsCue] at h
    | cons x rest ih =>
      rw [containsCue_unfold, Bool.or_eq_true] at h
      rcases h with h | h
      · cases rest with
        | nil => simp at h
        | cons b rest2 =>
          cases rest2 with
          | nil => simp at h
          | cons c after => exact ⟨[], x, b, c, after, rfl, h⟩
      · obtain ⟨before, a, b, c, after, hs, hcue⟩ := ih h
        exact ⟨x :: before, a, b, c, after, by rw [hs]; rfl, hcue⟩
  · rintro ⟨before, a, b, c, after, rfl, h⟩
    induction before with
    | nil => exact containsCue_head a b c after h
    | cons y before ih => exact containsCue_cons y _ ih

theorem regexpParse_cue :
    regexpParse ("(?i)" ++ "cue|cuelang") =
      some (alternation true ["cue".data, "cuelang".data]) := by
  rfl

theorem forall₂_cue (m : List Char) :
    List.Forall₂ (fun c a => a ∈ foldOrbit c) "cue".data m ↔
      ∃ a b c, m = [a, b, c] ∧ isCue a b c = true := by
  have hc : foldOrbit 'c' = ['c', 'C'] := by decide
  have hu : foldOrbit 'u' = ['u', 'U'] := by decide
  have he : foldOrbit 'e' = ['e', 'E'] := by decide
  show List.Forall₂ (fun c a => a ∈ foldOrbit c) ['c', 'u', 'e'] m ↔ _
  simp only [List.forall₂_cons_left_iff, List.forall₂_nil_left_iff, hc, hu, he, isCue]
  constructor
  · rintro ⟨a, _, ha, ⟨b, _, hb, ⟨c, _, hc', rfl, rfl⟩, rfl⟩, rfl⟩
    refine ⟨a, b, c, rfl, ?_⟩
    simp at ha hb hc'
    simp [ha, hb, hc']
  · rintro ⟨a, b, c, rfl, h⟩
    simp at h
    refine ⟨a, _, ?_, ⟨b, _, ?_, ⟨c, _, ?_, rfl, rfl⟩, rfl⟩, rfl⟩
    · simpa using h.1.1
    · simpa using h.1.2
    · simpa using h.2

theorem forall₂_cuelang (m : List Char)
    (h : List.Forall₂ (fun c a => a ∈ foldOrbit c) "cuelang".data m) :
    ∃ a b c after, m = a :: b :: c :: after ∧ isCue a b c = true := by
  have h1 := List.forall₂_take 3 h
  have h0 : List.take 3 "cuelang".data = "cue".data := by decide
  rw [h0] at h1
  obtain ⟨a, b, c, h2, hcue⟩ := (forall₂_cue _).1 h1
  refine ⟨a, b, c, m.drop 3, ?_, hcue⟩
  have h3 := List.take_append_drop 3 m
  rw [h2] at h3
  exact h3.symm

theorem matchAnywhere_cue (s : String) :
    matchAnywhere (alternation true ["cue".data, "cuelang".data]) s = containsCue s.data := by
  rw [Bool.eq_iff_iff, matchAnywhere_iff, containsCue_iff]
  constructor
  · rintro ⟨before, m, after, hs, hm⟩
    rw [mem_matches_alternation] at hm
    obtain ⟨alt, halt, hm⟩ := hm
    simp only [List.mem_cons, List.mem_singleton, List.not_mem_nil, or_false] at halt
    rcases halt with rfl | rfl
    · obtain ⟨a, b, c, rfl, hcue⟩ := (forall₂_cue m).1 hm
      exact ⟨before, a, b, c, after, by simpa using hs, hcue⟩
    · obtain ⟨a, b, c, more, rfl, hcue⟩ := forall₂_cuelang m hm
      exact ⟨before, a, b, c, more ++ after, by simpa using hs, hcue⟩
  · rintro ⟨before, a, b, c, after, hs, hcue⟩
    refine ⟨before, [a, b, c], after, by simpa using hs, ?_⟩
    rw [mem_matches_alternation]
    exact ⟨"cue".data, by simp, (forall₂_cue _).2 ⟨a, b, c, rfl, hcue⟩⟩

theorem regexpMustCompile_cue :
    regexpMustCompile ("(?i)" ++ "cue|cuelang") =
      some { MatchString := matchAnywhere (alternation true ["cue".data, "cuelang".data]) } := by
  rw [regexpMustCompile, regexpParse_cue]
  rfl

theorem isCue_iff (a b c : Char) :
    isCue a b c = true ↔
      (a = 'c' ∨ a = 'C') ∧ (b = 'u' ∨ b = 'U') ∧ (c = 'e' ∨ c = 'E') := by
  simp [isCue, and_assoc]

theorem containsCue_of_infix (s m : List Char) (h : m <:+: s)
    (hm : containsCue m = true) : containsCue s = true := by
  obtain ⟨before, a, b, c, after, rfl, hcue⟩ := (containsCue_iff m).1 hm
  obtain ⟨pre, post, rfl⟩ := h
  exact (containsCue_iff _).2 ⟨pre ++ before, a, b, c, after ++ post, by simp, hcue⟩

/-- C3: with the pattern `cue|cuelang`, `filterRecords` keeps exactly the
records whose `Content` holds somewhere the letters c, u, e in a row, each in
upper or lower case (`containsCue`), in the order of the input; so a record
whose `Content` contains `CUE`, `cue` or `Cuelang` is kept, and a record
without such an occurrence is dropped. -/
theorem filterRecords_cue (records : List Record) :
    filterRecords regexpMustCompile records "cue|cuelang" =
        some (records.filter (fun r => containsCue r.Content.data)) ∧
      (∀ r : Record, containsCue r.Content.data = true ↔
        ∃ before a b c after, r.Content.data = before ++ a :: b :: c :: after ∧
          (a = 'c' ∨ a = 'C') ∧ (b = 'u' ∨ b = 'U') ∧ (c = 'e' ∨ c = 'E')) ∧
      (∀ r ∈ records,
        ("CUE".data <:+: r.Content.data ∨ "cue".data <:+: r.Content.data ∨
          "Cuelang".data <:+: r.Content.data) →
        r ∈ records.filter (fun r => containsCue r.Content.data)) ∧
      (∀ r ∈ records, containsCue r.Content.data = false →
        r ∉ records.filter (fun r => containsCue r.Content.data)) := by
  refine ⟨?_, ?_, ?_, ?_⟩
  · rw [filterRecords_of_compile regexpMustCompile records "cue|cuelang" _
      regexpMustCompile_cue]
    exact congrArg (fun p => some (List.filter p records))
      (funext fun r => matchAnywhere_cue r.Content)
  · intro r
    rw [containsCue_iff]
    simp only [isCue_iff]
  · intro r hr h
    rw [List.mem_filter]
    refine ⟨hr, ?_⟩
    rcases h with h | h | h
    · exact containsCue_of_infix _ _ h (by decide)
    · exact containsCue_of_infix _ _ h (by decide)
    · exact containsCue_of_infix _ _ h (by decide)
  · intro r _ h
    simp [List.mem_filter, h]

theorem filterRecords_cue_example :
    filterRecords regexpMustCompile
        [{ Content := "I like CUE" }, { Content := "pkl" }, { Content := "Cuelang x" },
          { Content := "res-cUe" }, { Content := "c ue" }] "cue|cuelang" =
      some [{ Content := "I like CUE" }, { Content := "Cuelang x" }, { Content := "res-cUe" }] := by
  rw [(filterRecords_cue _).1]
  decide

/-! ## The batch loop -/

theorem batchAt_eq_batchSlice (records : List Record) (k : Nat) :
    batchAt records (75 * k) = batchSlice records k := by
  simp only [batchAt, batchSlice, batchSize]
  congr 2
  by_cases h : 75 * k + 75 > records.length
  · rw [if_pos h]; omega
  · rw [if_neg h]; omega

theorem batchLoop_recordBatch (records : List Record) (fuel j : Nat)
    (log : List (String × List Record))
    (hfuel : numBatches records.length - j < fuel) :
    batchLoop recordBatch records fuel (75 * j) log =
      some (none, log ++ (List.range' j (numBatches records.length - j)).map
        (fun k => (fileName (75 * k), batchSlice records k))) := by
  induction fuel generalizing j log with
  | zero => omega
  | succ fuel ih =>
    rw [batchLoop]
    by_cases h : 75 * j < records.length
    · have hj : j < numBatches records.length := by
        unfold numBatches; omega
      have hstep : 75 * j + batchSize = 75 * (j + 1) := by
        simp only [batchSize]; omega
      rw [if_pos h]
      simp only [recordBatch]
      rw [hstep, ih (j + 1) _ (by omega)]
      have hr : numBatches records.length - j = (numBatches records.length - (j + 1)) + 1 := by
        omega
      rw [hr, List.range'_succ, List.map_cons, batchAt_eq_batchSlice]
      simp
    · have hj : numBatches records.length - j = 0 := by
        unfold numBatches; omega
      rw [if_neg h, hj]
      simp

theorem batches_eq (records : List Record) :
    batches records =
      some ((List.range (numBatches records.length)).map
        (fun k => (fileName (75 * k), batchSlice records k))) := by
  have h := batchLoop_recordBatch records (records.length + 1) 0 []
    (by unfold numBatches; omega)
  rw [Nat.mul_zero] at h
  rw [batches, h]
  simp [List.range_eq_range']

theorem flatten_batchSlice (records : List Record) (m : Nat) :
    ((List.range m).map (batchSlice records)).flatten = records.take (75 * m) := by
  induction m with
  | zero => simp
  | succ m ih =>
    rw [List.range_succ, List.map_append, List.flatten_append, ih]
    simp only [List.map_singleton, List.flatten_singleton, batchSlice]
    rw [List.drop_take]
    have h1 : 75 * (m + 1) = 75 * m + 75 := by omega
    rw [h1, List.take_add]
    congr 1
    by_cases h : 75 * m + 75 ≤ records.length
    · rw [Nat.min_eq_left h]
      congr 1
      omega
    · rw [Nat.min_eq_right (by omega)]
      rw [List.take_of_length_le (by simp), List.take_of_length_le (by simp; omega)]

theorem length_batchSlice (records : List Record) (k : Nat) :
    (batchSlice records k).length = min (75 * (k + 1)) records.length - 75 * k := by
  simp [batchSlice]

/-! ## The batch template -/

set_option maxRecDepth 100000 in
theorem templateParse_tmpl : templateParse tmpl = some batchTemplate := by
  decide

theorem execBody_content (out : String) (r : Record) :
    execBody out [Leaf.text "\n", Leaf.field "Content", Leaf.text "\n"] r =
      Except.ok (((out ++ "\n") ++ r.Content) ++ "\n") := by
  rfl

theorem foldlM_execBody (batch : List Record) (out : String) :
    batch.foldlM
        (fun o r => execBody o [Leaf.text "\n", Leaf.field "Content", Leaf.text "\n"] r) out =
      Except.ok (batch.foldl (fun o r => ((o ++ "\n") ++ r.Content) ++ "\n") out) := by
  induction batch generalizing out with
  | nil => rfl
  | cons r batch ih =>
    rw [List.foldlM_cons, execBody_content, List.foldl_cons, ← ih]
    rfl

theorem templateExecute_batchTemplate (batch : List Record) :
    templateExecute batchTemplate batch = Except.ok (renderSpec batch) := by
  simp only [templateExecute, batchTemplate, List.foldlM_cons, List.foldlM_nil, execNode]
  have h0 : ("" : String) ++ tmplHeader = tmplHeader := by
    apply String.ext; simp
  simp only [bind, Except.bind, h0, foldlM_execBody, renderSpec]
  rfl

theorem renderSpec_data (batch : List Record) :
    (renderSpec batch).data =
      tmplHeader.data ++
        (batch.map (fun r => '\n' :: (r.Content.data ++ ['\n']))).flatten ++ ['\n'] := by
  have h : ∀ (b : List Record) (out : String),
      (b.foldl (fun o r => ((o ++ "\n") ++ r.Content) ++ "\n") out).data =
        out.data ++ (b.map (fun r => '\n' :: (r.Content.data ++ ['\n']))).flatten := by
    intro b
    induction b with
    | nil => intro out; simp
    | cons r b ih =>
      intro out
      rw [List.foldl_cons, ih]
      simp [String.data_append]
  rw [renderSpec, String.data_append, h]

theorem readFile_setFile (w : World) (path content : String) :
    (w.setFile path content).readFile path = some content := by
  simp [World.setFile, World.readFile, List.lookup]

theorem setFile_setFile (w : World) (path c1 c2 : String) :
    (w.setFile path c1).setFile path c2 = w.setFile path c2 := by
  simp [World.setFile, List.filter_cons, List.filter_filter]

theorem empty_append (s : String) : "" ++ s = s := by
  apply String.ext; simp

theorem writeBatch_ok (env : Env) (i : Nat) (batch : List Record) (w : World)
    (hcreate : env.createErr (fileName i) = none)
    (hwrite : env.writeErr (fileName i) = none) :
    writeBatch env i batch w = some (none, w.setFile (fileName i) (renderSpec batch)) := by
  simp only [writeBatch, templateParse_tmpl, create, hcreate, templateExecute_batchTemplate,
    writeString, hwrite, readFile_setFile, Option.getD_some, empty_append, setFile_setFile]

/-- C6: the template literal parses, and its execution on a batch gives the
header, then for each record in order a newline, the record's `Content` as it
is and a newline, then one newline; when the file can be created and written,
this text is what `buildTemplates` leaves in the batch's file. -/
theorem render_batch (batch : List Record) :
    (∃ t, templateParse tmpl = some t ∧
      templateExecute t batch = Except.ok (renderSpec batch)) ∧
    (renderSpec batch).data =
      tmplHeader.data ++
        (batch.map (fun r => '\n' :: (r.Content.data ++ ['\n']))).flatten ++ ['\n'] ∧
    (∀ (env : Env) (i : Nat) (w : World),
      env.createErr (fileName i) = none → env.writeErr (fileName i) = none →
      ∃ w1, writeBatch env i batch w = some (none, w1) ∧
        w1.readFile (fileName i) = some (renderSpec batch)) :=
  ⟨⟨batchTemplate, templateParse_tmpl, templateExecute_batchTemplate batch⟩,
    renderSpec_data batch,
    fun env i w hc hw =>
      ⟨_, writeBatch_ok env i batch w hc hw, readFile_setFile _ _ _⟩⟩

set_option maxRecDepth 100000 in
theorem render_batch_example :
    (∃ t, templateParse tmpl = some t ∧
      templateExecute t [{ Content := "a \x7b\x7b.Content\x7d\x7d <b>" }, { Content := "c" }] =
        Except.ok (tmplHeader ++ "\na \x7b\x7b.Content\x7d\x7d <b>\n\nc\n\n")) := by
  obtain ⟨t, h1, h2⟩ := (render_batch [{ Content := "a \x7b\x7b.Content\x7d\x7d <b>" }, { Content := "c" }]).1
  exact ⟨t, h1, by rw [h2]; exact congrArg Except.ok (by decide)⟩

/-! ## The batches and their files -/

theorem batchLoop_of_ok {σ : Type} (body : Nat → List Record → σ → Option (Option String × σ))
    (step : Nat → List Record → σ → σ) (records : List Record)
    (hbody : ∀ k s, k < numBatches records.length →
      body (75 * k) (batchSlice records k) s = some (none, step k (batchSlice records k) s))
    (fuel j : Nat) (s : σ) (hfuel : numBatches records.length - j < fuel) :
    batchLoop body records fuel (75 * j) s =
      some (none, (List.range' j (numBatches records.length - j)).foldl
        (fun s k => step k (batchSlice records k) s) s) := by
  induction fuel generalizing j s with
  | zero => omega
  | succ fuel ih =>
    rw [batchLoop]
    by_cases h : 75 * j < records.length
    · have hj : j < numBatches records.length := by
        unfold numBatches; omega
      have hstep : 75 * j + batchSize = 75 * (j + 1) := by
        simp only [batchSize]; omega
      rw [if_pos h, batchAt_eq_batchSlice, hbody j s hj]
      simp only
      rw [hstep, ih (j + 1) _ (by omega)]
      have hr : numBatches records.length - j = (numBatches records.length - (j + 1)) + 1 := by
        omega
      rw [hr, List.range'_succ, List.foldl_cons]
    · have hj : numBatches records.length - j = 0 := by
        unfold numBatches; omega
      rw [if_neg h, hj]
      simp

theorem batchLoop_writeBatch (env : Env) (records : List Record) (w : World)
    (hcreate : ∀ path, env.createErr path = none)
    (hwrite : ∀ path, env.writeErr path = none) :
    batchLoop (writeBatch env) records (records.length + 1) 0 w =
      some (none,
        ((List.range (numBatches records.length)).map
            (fun k => (fileName (75 * k), batchSlice records k))).foldl
          (fun w b => w.setFile b.1 (renderSpec b.2)) w) := by
  have h := batchLoop_of_ok (writeBatch env)
    (fun k batch w => w.setFile (fileName (75 * k)) (renderSpec batch)) records
    (fun k s _ => writeBatch_ok env (75 * k) _ s (hcreate _) (hwrite _))
    (records.length + 1) 0 w (by unfold numBatches; omega)
  rw [Nat.mul_zero] at h
  rw [h, List.foldl_map]
  simp [List.range_eq_range']

theorem length_batchSlice_full (records : List Record) (k : Nat)
    (h : k + 1 < numBatches records.length) : (batchSlice records k).length = 75 := by
  rw [length_batchSlice]
  unfold numBatches at h
  omega

theorem length_batchSlice_bounds (records : List Record) (k : Nat)
    (h : k < numBatches records.length) :
    1 ≤ (batchSlice records k).length ∧ (batchSlice records k).length ≤ 75 := by
  rw [length_batchSlice]
  unfold numBatches at h
  omega

theorem parse_files (env : Env) (fname : String) (w : World) (recs : List Record)
    (w1 : World) (h : parse env fname w = (Except.ok recs, w1)) : w1.files = w.files := by
  unfold parse at h
  split at h
  · simp at h
  · simp only at h
    split at h
    · simp at h
    · simp only [Prod.mk.injEq] at h
      rw [← h.2]
      rfl

/-- C5: the batch loop ends and produces `numBatches n = ⌈n / 75⌉` batches for
`n` records; the batch of 0-based index `k` is the slice of the records from
position `75 * k` up to but excluding `min (75 * (k + 1)) n`; the batches in
order concatenate to the records; every batch but the last has 75 records and
every batch has between 1 and 75; 150 records give two batches of 75 and 75;
no record gives no batch, and then `buildTemplates` writes no file and
returns no error; when no file operation fails, the loop of `buildTemplates`
writes one file for each batch, in order. -/
theorem batches_partition (records : List Record) :
    ∃ L : List (String × List Record),
      batches records = some L ∧
      L.length = numBatches records.length ∧
      (∀ k, k < L.length →
        (L.map Prod.snd)[k]? =
          some ((records.take (min (75 * (k + 1)) records.length)).drop (75 * k))) ∧
      (L.map Prod.snd).flatten = records ∧
      (∀ k, k + 1 < L.length → ((L.map Prod.snd)[k]?).map List.length = some 75) ∧
      (∀ b ∈ L, 1 ≤ b.2.length ∧ b.2.length ≤ 75) ∧
      (records.length = 150 → L.map (fun b => b.2.length) = [75, 75]) ∧
      (records = [] → L = []) ∧
      (∀ (env : Env) (w : World),
        batchLoop (writeBatch env) [] (([] : List Record).length + 1) 0 w = some (none, w)) ∧
      (∀ (env : Env) (w w1 : World) (recs : List Record),
        parse env "data.txt" w = (Except.ok recs, w1) →
        filterRecords regexpMustCompile recs pattern = some [] →
        buildTemplates env w = some (none, w1) ∧ w1.files = w.files) ∧
      (∀ (env : Env) (w : World),
        (∀ path, env.createErr path = none) → (∀ path, env.writeErr path = none) →
        batchLoop (writeBatch env) records (records.length + 1) 0 w =
          some (none, L.foldl (fun w b => w.setFile b.1 (renderSpec b.2)) w)) := by
  refine ⟨_, batches_eq records, by simp, ?_, ?_, ?_, ?_, ?_, ?_, ?_, ?_, ?_⟩
  · intro k hk
    simp only [List.length_map, List.length_range] at hk
    simp [hk, batchSlice]
  · rw [List.map_map]
    have h : (Prod.snd ∘ fun k => (fileName (75 * k), batchSlice records k)) =
        batchSlice records := rfl
    rw [h, flatten_batchSlice]
    apply List.take_of_length_le
    unfold numBatches
    omega
  · intro k hk
    simp only [List.length_map, List.length_range] at hk
    have hk1 : k < numBatches records.length := by omega
    simp [hk1, length_batchSlice_full records k hk]
  · intro b hb
    simp only [List.mem_map, List.mem_range] at hb
    obtain ⟨k, hk, rfl⟩ := hb
    exact length_batchSlice_bounds records k hk
  · intro h
    have h2 : numBatches records.length = 2 := by rw [h]; rfl
    rw [h2]
    simp [List.range_succ, length_batchSlice, h]
  · rintro rfl
    rfl
  · intro env w
    rfl
  · intro env w w1 recs hparse hfilter
    refine ⟨?_, parse_files env "data.txt" w recs w1 hparse⟩
    simp only [buildTemplates, hparse, hfilter]
    rfl
  · intro env w hc hw
    exact batchLoop_writeBatch env records w hc hw

theorem batches_partition_example :
    ∃ L : List (String × List Record),
      batches (List.replicate 150 { Content := "cue" }) = some L ∧
      L.map (fun b => b.2.length) = [75, 75] := by
  obtain ⟨L, h1, _, _, _, _, _, h150, _⟩ :=
    batches_partition (List.replicate 150 { Content := "cue" })
  exact ⟨L, h1, h150 (List.length_replicate _ _)⟩

set_option maxRecDepth 100000 in
theorem batches_evaluated :
    (batches (List.replicate 150 { Content := "cue" })).map
        (fun L => L.map (fun b => (b.1, b.2.length))) =
      some [("./result_01.txt", 75), ("./result_02.txt", 75)] ∧
    (batches (List.replicate 76 { Content := "cue" })).map
        (fun L => L.map (fun b => (b.1, b.2.length))) =
      some [("./result_01.txt", 75), ("./result_02.txt", 1)] ∧
    batches [] = some [] := by
  decide

/-! ## `%02d` -/

theorem toDigitsCore_append (n : Nat) :
    ∀ fuel ds, n < fuel →
      Nat.toDigitsCore 10 fuel n ds = Nat.toDigits 10 n ++ ds := by
  induction n using Nat.strong_induction_on with
  | _ n ih =>
    intro fuel ds hfuel
    obtain ⟨f, rfl⟩ : ∃ f, fuel = f + 1 := ⟨fuel - 1, by omega⟩
    rw [Nat.toDigits, Nat.toDigitsCore, Nat.toDigitsCore]
    by_cases h : n / 10 = 0
    · simp [h]
    · have hlt : n / 10 < n := by omega
      simp only [h, if_false]
      rw [ih (n / 10) hlt f _ (by omega), ih (n / 10) hlt n _ hlt]
      simp

theorem toDigits_small (n : Nat) (h : n < 10) : Nat.toDigits 10 n = [Nat.digitChar n] := by
  rw [Nat.toDigits, Nat.toDigitsCore]
  have h1 : n / 10 = 0 := by omega
  have h2 : n % 10 = n := by omega
  simp [h1, h2]

theorem toDigits_step (n : Nat) (h : 10 ≤ n) :
    Nat.toDigits 10 n = Nat.toDigits 10 (n / 10) ++ [Nat.digitChar (n % 10)] := by
  have h1 : n / 10 ≠ 0 := by omega
  conv_lhs => rw [Nat.toDigits, Nat.toDigitsCore]
  simp only [h1, if_false]
  exact toDigitsCore_append (n / 10) n _ (by omega)

theorem digitChar_value : ∀ k, k < 10 → (Nat.digitChar k).toNat - '0'.toNat = k := by
  decide

theorem decimalValue_concat (cs : List Char) (c : Char) :
    decimalValue (cs ++ [c]) = 10 * decimalValue cs + (c.toNat - '0'.toNat) := by
  simp [decimalValue, List.foldl_append]

theorem decimalValue_toDigits (n : Nat) : decimalValue (Nat.toDigits 10 n) = n := by
  induction n using Nat.strong_induction_on with
  | _ n ih =>
    by_cases h : n < 10
    · rw [toDigits_small n h]
      simpa [decimalValue] using digitChar_value n h
    · rw [toDigits_step n (by omega), decimalValue_concat, ih (n / 10) (by omega),
        digitChar_value _ (Nat.mod_lt n (by omega))]
      omega

theorem length_toDigits_pos (n : Nat) : 1 ≤ (Nat.toDigits 10 n).length := by
  by_cases h : n < 10
  · rw [toDigits_small n h]; simp
  · rw [toDigits_step n (by omega)]; simp

theorem length_toDigits_two (n : Nat) (h : 10 ≤ n) : 2 ≤ (Nat.toDigits 10 n).length := by
  rw [toDigits_step n h, List.length_append]
  have := length_toDigits_pos (n / 10)
  simp
  omega

theorem length_toDigits_three (n : Nat) (h : 100 ≤ n) : 3 ≤ (Nat.toDigits 10 n).length := by
  rw [toDigits_step n (by omega), List.length_append]
  have := length_toDigits_two (n / 10) (by omega)
  simp
  omega

theorem length_toDigits_lt_hundred (n : Nat) (h1 : 10 ≤ n) (h2 : n < 100) :
    (Nat.toDigits 10 n).length = 2 := by
  rw [toDigits_step n h1, toDigits_small (n / 10) (by omega)]
  rfl

theorem sprintf02d_small (n : Nat) (h : n < 10) :
    sprintf02d n = ⟨['0', Nat.digitChar n]⟩ := by
  simp [sprintf02d, toDigits_small n h]

theorem sprintf02d_large (n : Nat) (h : 10 ≤ n) : sprintf02d n = ⟨Nat.toDigits 10 n⟩ := by
  have := length_toDigits_two n h
  have h0 : 2 - (Nat.toDigits 10 n).length = 0 := by omega
  simp [sprintf02d, h0]

theorem decimalValue_sprintf02d (n : Nat) : decimalValue (sprintf02d n).data = n := by
  by_cases h : n < 10
  · rw [sprintf02d_small n h]
    simpa [decimalValue] using digitChar_value n h
  · rw [sprintf02d_large n (by omega)]
    exact decimalValue_toDigits n

theorem length_sprintf02d (n : Nat) :
    2 ≤ (sprintf02d n).length ∧ ((sprintf02d n).length = 2 ↔ n < 100) := by
  by_cases h : n < 10
  · rw [sprintf02d_small n h]
    simp [String.length]
    omega
  · rw [sprintf02d_large n (by omega)]
    simp only [String.length]
    by_cases h2 : n < 100
    · have := length_toDigits_lt_hundred n (by omega) h2
      simp [this, h2]
    · have := length_toDigits_three n (by omega)
      constructor
      · omega
      · constructor
        · intro h3; omega
        · intro h3; omega

theorem fileName_index (k : Nat) :
    fileName (75 * k) = scratch ++ "/result_" ++ sprintf02d (k + 1) ++ ".txt" := by
  have h : 75 * k / batchSize = k := by
    simp only [batchSize]; omega
  rw [fileName, h]

theorem digitChar_isDigit : ∀ k, k < 10 → (Nat.digitChar k).isDigit = true := by
  decide

theorem toDigits_isDigit (n : Nat) : ∀ c ∈ Nat.toDigits 10 n, c.isDigit = true := by
  induction n using Nat.strong_induction_on with
  | _ n ih =>
    by_cases h : n < 10
    · rw [toDigits_small n h]
      intro c hc
      rw [List.mem_singleton] at hc
      rw [hc]
      exact digitChar_isDigit n h
    · rw [toDigits_step n (by omega)]
      intro c hc
      rcases List.mem_append.1 hc with hc | hc
      · exact ih (n / 10) (by omega) c hc
      · rw [List.mem_singleton] at hc
        rw [hc]
        exact digitChar_isDigit _ (Nat.mod_lt n (by omega))

theorem sprintf02d_isDigit (n : Nat) : ∀ c ∈ (sprintf02d n).data, c.isDigit = true := by
  intro c hc
  simp only [sprintf02d, List.mem_append, List.mem_replicate] at hc
  rcases hc with ⟨_, rfl⟩ | hc
  · rfl
  · exact toDigits_isDigit n c hc

theorem digitChar_ofNat : ∀ k, k < 10 → Nat.digitChar k = Char.ofNat (48 + k) := by
  decide

theorem isDigit_range (c : Char) (h : c.isDigit = true) : 48 ≤ c.toNat ∧ c.toNat ≤ 57 := by
  simp only [Char.isDigit, Bool.and_eq_true, decide_eq_true_eq] at h
  have h1 : (48 : UInt32).toNat ≤ c.val.toNat := h.1
  have h2 : c.val.toNat ≤ (57 : UInt32).toNat := h.2
  exact ⟨h1, h2⟩

theorem digitChar_of_isDigit (c : Char) (h : c.isDigit = true) :
    Nat.digitChar (c.toNat - '0'.toNat) = c := by
  obtain ⟨h1, h2⟩ := isDigit_range c h
  have h0 : '0'.toNat = 48 := rfl
  rw [h0, digitChar_ofNat _ (by omega)]
  have h3 : 48 + (c.toNat - 48) = c.toNat := by omega
  rw [h3]
  exact Char.ofNat_toNat c

theorem digit_lt_ten (c : Char) (h : c.isDigit = true) : c.toNat - '0'.toNat < 10 := by
  obtain ⟨h1, h2⟩ := isDigit_range c h
  have h0 : '0'.toNat = 48 := rfl
  omega

theorem digitChar_ne_zero : ∀ k, k < 10 → 1 ≤ k → Nat.digitChar k ≠ '0' := by
  decide

theorem toDigits_ne_nil (n : Nat) : Nat.toDigits 10 n ≠ [] := by
  intro h
  have := length_toDigits_pos n
  rw [h] at this
  simp at this

theorem head_toDigits (n : Nat) (h : 1 ≤ n) : (Nat.toDigits 10 n).head? ≠ some '0' := by
  induction n using Nat.strong_induction_on with
  | _ n ih =>
    by_cases h10 : n < 10
    · rw [toDigits_small n h10]
      simp only [List.head?_cons, ne_eq, Option.some.injEq]
      exact digitChar_ne_zero n h10 h
    · rw [toDigits_step n (by omega)]
      obtain ⟨d, ds, hd⟩ := List.exists_cons_of_ne_nil (toDigits_ne_nil (n / 10))
      have := ih (n / 10) (by omega) (by omega)
      rw [hd] at this ⊢
      simpa using this

theorem toDigits_decimalValue (cs : List Char) (hne : cs ≠ [])
    (hd : ∀ c ∈ cs, c.isDigit = true)
    (hhead : cs.head? ≠ some '0' ∨ cs.length = 1) :
    Nat.toDigits 10 (decimalValue cs) = cs := by
  induction cs using List.reverseRecOn with
  | nil => exact absurd rfl hne
  | append_singleton init d ih =>
    have hdd : d.isDigit = true := hd d (by simp)
    rw [decimalValue_concat]
    by_cases hinit : init = []
    · subst hinit
      have h0 : decimalValue [] = 0 := rfl
      rw [h0, Nat.mul_zero, Nat.zero_add, toDigits_small _ (digit_lt_ten d hdd),
        digitChar_of_isDigit d hdd]
      rfl
    · obtain ⟨a, as, has⟩ := List.exists_cons_of_ne_nil hinit
      have hhead2 : init.head? ≠ some '0' := by
        rcases hhead with h | h
        · rw [has] at h ⊢
          simpa using h
        · rw [has] at h
          simp at h
      have ih2 := ih hinit (fun c hc => hd c (by simp [hc])) (Or.inl hhead2)
      have hpos : 1 ≤ decimalValue init := by
        by_contra hz
        have hz0 : decimalValue init = 0 := by omega
        rw [hz0] at ih2
        have h1 : Nat.toDigits 10 0 = ['0'] := by decide
        rw [h1] at ih2
        rw [← ih2] at hhead2
        exact hhead2 rfl
      have hlt := digit_lt_ten d hdd
      have hdiv : (10 * decimalValue init + (d.toNat - '0'.toNat)) / 10 = decimalValue init := by
        omega
      have hmod : (10 * decimalValue init + (d.toNat - '0'.toNat)) % 10 =
          d.toNat - '0'.toNat := by
        omega
      rw [toDigits_step _ (by omega), hdiv, hmod, ih2, digitChar_of_isDigit d hdd]

theorem sprintf02d_two_digits (n : Nat) (h : n < 100) :
    sprintf02d n = ⟨[Nat.digitChar (n / 10), Nat.digitChar (n % 10)]⟩ := by
  by_cases h10 : n < 10
  · have h1 : n / 10 = 0 := by omega
    have h2 : n % 10 = n := by omega
    rw [sprintf02d_small n h10, h1, h2]
    rfl
  · rw [sprintf02d_large n (by omega), toDigits_step n (by omega),
      toDigits_small (n / 10) (by omega)]
    rfl

theorem sprintf02d_eq_repr (n : Nat) (h : 10 ≤ n) : sprintf02d n = Nat.repr n := by
  rw [sprintf02d_large n h]
  rfl

theorem head_sprintf02d (n : Nat) (h : 10 ≤ n) : (sprintf02d n).data.head? ≠ some '0' := by
  rw [sprintf02d_large n h]
  exact head_toDigits n (by omega)

theorem sprintf02d_unique (n : Nat) (cs : List Char)
    (hd : ∀ c ∈ cs, c.isDigit = true) (hv : decimalValue cs = n)
    (hshort : n < 100 → cs.length = 2)
    (hlong : 100 ≤ n → cs.head? ≠ some '0') :
    cs = (sprintf02d n).data := by
  by_cases h100 : n < 100
  · have hlen := hshort h100
    obtain ⟨a, b, rfl⟩ : ∃ a b, cs = [a, b] := by
      match cs, hlen with
      | [a, b], _ => exact ⟨a, b, rfl⟩
    have ha : a.isDigit = true := hd a (by simp)
    have hb : b.isDigit = true := hd b (by simp)
    have hval : 10 * (a.toNat - '0'.toNat) + (b.toNat - '0'.toNat) = n := by
      simpa [decimalValue] using hv
    have hla := digit_lt_ten a ha
    have hlb := digit_lt_ten b hb
    have hdiv : n / 10 = a.toNat - '0'.toNat := by omega
    have hmod : n % 10 = b.toNat - '0'.toNat := by omega
    rw [sprintf02d_two_digits n h100, hdiv, hmod, digitChar_of_isDigit a ha,
      digitChar_of_isDigit b hb]
  · have hne : cs ≠ [] := by
      rintro rfl
      have h0 : decimalValue [] = 0 := rfl
      omega
    have h := toDigits_decimalValue cs hne hd (Or.inl (hlong (by omega)))
    rw [hv] at h
    rw [sprintf02d_large n (by omega), h]

/-- C7 (amended): the file name of the batch of 1-based index `k + 1` is the
output directory, `/result_`, the index text and `.txt`. The index text is
the index in decimal: for an index below 100 exactly the two digits tens and
units (so `01`, `02` for the first two batches), for an index from 10 on the
plain decimal numeral `Nat.repr` without a leading zero, hence three or more
digits from index 100 on (`100` for batch 100). It is the only sequence of
decimal digits with the value of the index that has two digits below 100
and no leading zero from 100 on. -/
theorem fileNames_spec (records : List Record) :
    ∃ L : List (String × List Record),
      batches records = some L ∧
      (∀ k, k < L.length →
        (L.map Prod.fst)[k]? = some (scratch ++ "/result_" ++ sprintf02d (k + 1) ++ ".txt") ∧
        (∀ c ∈ (sprintf02d (k + 1)).data, c.isDigit = true) ∧
        decimalValue (sprintf02d (k + 1)).data = k + 1 ∧
        2 ≤ (sprintf02d (k + 1)).length ∧
        ((sprintf02d (k + 1)).length = 2 ↔ k + 1 < 100) ∧
        (k + 1 < 100 →
          sprintf02d (k + 1) =
            ⟨[Nat.digitChar ((k + 1) / 10), Nat.digitChar ((k + 1) % 10)]⟩) ∧
        (10 ≤ k + 1 →
          sprintf02d (k + 1) = Nat.repr (k + 1) ∧
            (sprintf02d (k + 1)).data.head? ≠ some '0') ∧
        (∀ cs : List Char, (∀ c ∈ cs, c.isDigit = true) → decimalValue cs = k + 1 →
          (k + 1 < 100 → cs.length = 2) → (100 ≤ k + 1 → cs.head? ≠ some '0') →
          cs = (sprintf02d (k + 1)).data)) ∧
      sprintf02d 1 = "01" ∧ sprintf02d 2 = "02" ∧ sprintf02d 99 = "99" ∧
      sprintf02d 100 = "100" := by
  refine ⟨_, batches_eq records, ?_, by decide, by decide, by decide, by decide⟩
  intro k hk
  simp only [List.length_map, List.length_range] at hk
  refine ⟨?_, sprintf02d_isDigit _, decimalValue_sprintf02d _, (length_sprintf02d _).1,
    (length_sprintf02d _).2, sprintf02d_two_digits _,
    fun h => ⟨sprintf02d_eq_repr _ h, head_sprintf02d _ h⟩,
    fun cs hd hv hshort hlong => sprintf02d_unique _ cs hd hv hshort hlong⟩
  simp [hk, fileName_index]

theorem fileNames_spec_example :
    ∃ L : List (String × List Record),
      batches [{ Content := "cue" }] = some L ∧
      (L.map Prod.fst)[0]? = some "./result_01.txt" := by
  obtain ⟨L, h1, h2, _⟩ := fileNames_spec [{ Content := "cue" }]
  have hlen : 0 < L.length := by
    rw [batches_eq] at h1
    rw [← Option.some.inj h1]
    decide
  exact ⟨L, h1, (h2 0 hlen).1⟩

/-- C7 as stated fails: 7426 records give 100 batches, and the file name of
the last one is `./result_100.txt`, whose index has three digits; no two
characters in the place of the index give this name. -/
theorem fileNames_counterexample :
    ∃ L : List (String × List Record),
      batches (List.replicate 7426 { Content := "cue" }) = some L ∧
      L.length = 100 ∧
      (L.map Prod.fst)[99]? = some "./result_100.txt" ∧
      ¬ ∃ d1 d2 : Char, "./result_100.txt" = scratch ++ "/result_" ++ ⟨[d1, d2]⟩ ++ ".txt" := by
  have hn : numBatches (List.replicate 7426 ({ Content := "cue" } : Record)).length = 100 := by
    rw [List.length_replicate]; rfl
  refine ⟨_, batches_eq _, ?_, ?_, ?_⟩
  · rw [List.length_map, List.length_range, hn]
  · rw [hn]
    have h : fileName (75 * 99) = "./result_100.txt" := by decide
    rw [List.map_map, List.getElem?_map, List.getElem?_range (by omega), ← h]
    rfl
  · rintro ⟨d1, d2, h⟩
    have h2 := congrArg String.length h
    simp [String.length_append, scratch] at h2
    revert h2
    decide

/-! ## `fetchDataAndCache` on an existing cache file -/

/-- C9: when the stat of the cache path succeeds, `fetchDataAndCache` returns
the error `data already cached in <path>` and leaves the world as it is: no
request is sent (the list of requests is unchanged) and every file, the
cache file included, keeps its content. -/
theorem fetch_cached (env : Env) (url cacheFilePath : String) (w : World)
    (hstat : stat env w cacheFilePath = StatResult.ok) :
    (fetchDataAndCache env url cacheFilePath w).1 =
        some ("data already cached in " ++ cacheFilePath) ∧
      (fetchDataAndCache env url cacheFilePath w).2 = w ∧
      (fetchDataAndCache env url cacheFilePath w).2.requests = w.requests ∧
      (fetchDataAndCache env url cacheFilePath w).2.readFile cacheFilePath =
        w.readFile cacheFilePath := by
  simp [fetchDataAndCache, hstat]

theorem fetch_cached_witness :
    stat (calmEnv "<p>x</p>") (cachedWorld "old") "data.txt" = StatResult.ok ∧
      (fetchDataAndCache (calmEnv "<p>x</p>") "https://example.org/" "data.txt"
          (cachedWorld "old")).1 = some "data already cached in data.txt" ∧
      (fetchDataAndCache (calmEnv "<p>x</p>") "https://example.org/" "data.txt"
          (cachedWorld "old")).2 = cachedWorld "old" :=
  ⟨rfl,
    (fetch_cached (calmEnv "<p>x</p>") "https://example.org/" "data.txt" (cachedWorld "old")
      rfl).1,
    (fetch_cached (calmEnv "<p>x</p>") "https://example.org/" "data.txt" (cachedWorld "old")
      rfl).2.1⟩

/-! ## `parseHTML` -/

theorem string_join_cons (s : String) (l : List String) :
    String.join (s :: l) = s ++ String.join l := by
  apply String.ext
  simp [String.data_join]

theorem string_join_append (l1 l2 : List String) :
    String.join (l1 ++ l2) = String.join l1 ++ String.join l2 := by
  apply String.ext
  simp [String.data_join]

theorem textOf_append (l1 l2 : List Node) :
    String.join (((l1 ++ l2).filter (fun n => n.typ = NodeType.TextNode)).map Node.Data) =
      String.join ((l1.filter (fun n => n.typ = NodeType.TextNode)).map Node.Data) ++
        String.join ((l2.filter (fun n => n.typ = NodeType.TextNode)).map Node.Data) := by
  rw [List.filter_append, List.map_append, string_join_append]

mutual
theorem extractText_eq : ∀ (n : Node) (b : String),
    extractText b n =
      b ++ String.join (((preorder n).filter (fun n => n.typ = NodeType.TextNode)).map
        Node.Data)
  | Node.mk t d cs, b => by
    rw [extractText, extractTextChildren_eq cs, preorder]
    by_cases h : t = NodeType.TextNode
    · simp [h, List.filter_cons, Node.typ, Node.Data, string_join_cons, String.append_assoc]
    · simp [h, List.filter_cons, Node.typ]
theorem extractTextChildren_eq : ∀ (cs : List Node) (b : String),
    extractTextChildren b cs =
      b ++ String.join (((preorderChildren cs).filter
        (fun n => n.typ = NodeType.TextNode)).map Node.Data)
  | [], b => by
    simp [extractTextChildren, preorderChildren, String.join]
  | c :: cs, b => by
    rw [extractTextChildren, extractTextChildren_eq cs, extractText_eq c, preorderChildren,
      textOf_append, String.append_assoc]
end

theorem textOf_preorderChildren (cs : List Node) :
    String.join (((preorderChildren cs).filter (fun n => n.typ = NodeType.TextNode)).map
        Node.Data) =
      String.join (cs.map textContent) := by
  induction cs with
  | nil => simp [preorderChildren]
  | cons c cs ih =>
    rw [preorderChildren, textOf_append, ih, List.map_cons, string_join_cons, textContent]

theorem textContent_node (t : NodeType) (d : String) (cs : List Node) :
    textContent (Node.mk t d cs) =
      (if t = NodeType.TextNode then d else "") ++ String.join (cs.map textContent) := by
  rw [textContent, preorder, ← textOf_preorderChildren]
  by_cases h : t = NodeType.TextNode
  · simp [h, List.filter_cons, Node.typ, Node.Data, string_join_cons]
  · simp [h, List.filter_cons, Node.typ, empty_append]

/-- C10: for the tree `doc` that `html.Parse` returns, `parseHTML` returns no
error and the text `textContent doc`: the `Data` of the text nodes of the
tree in depth-first pre-order, joined with nothing between them. A node that
is not a text node adds nothing of its own: the text of a tree is the `Data`
of the root when it is a text node, followed by the texts of its children in
order. -/
theorem parseHTML_text (htmlParse : String → Node) (r : Body) (doc : Node)
    (hparse : htmlParseReader htmlParse r = Except.ok doc) :
    parseHTML htmlParse r = Except.ok (textContent doc) ∧
      textContent doc =
        String.join (((preorder doc).filter (fun n => n.typ = NodeType.TextNode)).map
          Node.Data) ∧
      (∀ (t : NodeType) (d : String) (cs : List Node),
        textContent (Node.mk t d cs) =
          (if t = NodeType.TextNode then d else "") ++ String.join (cs.map textContent)) := by
  refine ⟨?_, rfl, textContent_node⟩
  simp only [parseHTML, hparse, extractText_eq, textContent, empty_append]

theorem parseHTML_text_witness :
    parseHTML
        (fun _ => Node.mk NodeType.DocumentNode ""
          [Node.mk NodeType.ElementNode "html"
            [Node.mk NodeType.TextNode "a" [], Node.mk NodeType.CommentNode "zz" [],
              Node.mk NodeType.ElementNode "p" [Node.mk NodeType.TextNode "b" []],
              Node.mk NodeType.TextNode "c" []]])
        { data := "<html>a<!--zz--><p>b</p>c</html>", readErr := none } =
      Except.ok (textContent (Node.mk NodeType.DocumentNode ""
          [Node.mk NodeType.ElementNode "html"
            [Node.mk NodeType.TextNode "a" [], Node.mk NodeType.CommentNode "zz" [],
              Node.mk NodeType.ElementNode "p" [Node.mk NodeType.TextNode "b" []],
              Node.mk NodeType.TextNode "c" []]])) ∧
      textContent (Node.mk NodeType.DocumentNode ""
          [Node.mk NodeType.ElementNode "html"
            [Node.mk NodeType.TextNode "a" [], Node.mk NodeType.CommentNode "zz" [],
              Node.mk NodeType.ElementNode "p" [Node.mk NodeType.TextNode "b" []],
              Node.mk NodeType.TextNode "c" []]]) = "abc" :=
  ⟨(parseHTML_text _ { data := "<html>a<!--zz--><p>b</p>c</html>", readErr := none } _ rfl).1,
    by decide⟩

/-! ## `RunReport1`: the order of the stages -/

theorem lookup_filter_ne (p path : String) (h : p ≠ path) (l : List (String × String)) :
    (l.filter (fun f => f.1 != path)).lookup p = l.lookup p := by
  induction l with
  | nil => rfl
  | cons f l ih =>
    obtain ⟨q, c⟩ := f
    by_cases hq : q = path
    · subst hq
      have hpq : (p == q) = false := by simpa using h
      simp [List.filter_cons, List.lookup_cons, hpq, ih]
    · have hq2 : (q != path) = true := by simpa using hq
      by_cases hpq : p = q
      · subst hpq
        simp [List.filter_cons, hq2, List.lookup_cons]
      · have hpq2 : (p == q) = false := by simpa using hpq
        simp [List.filter_cons, hq2, List.lookup_cons, hpq2, ih]

theorem readFile_setFile_ne (w : World) (p path content : String) (h : p ≠ path) :
    (w.setFile path content).readFile p = w.readFile p := by
  have hp : (p == path) = false := by simpa using h
  simp only [World.setFile, World.readFile, List.lookup_cons, hp]
  exact lookup_filter_ne p path h w.files

theorem fetch_frame (env : Env) (url path : String) (w : World) :
    (fetchDataAndCache env url path w).2.dirs = w.dirs ∧
      (∀ p, p ≠ path → (fetchDataAndCache env url path w).2.readFile p = w.readFile p) ∧
      ((fetchDataAndCache env url path w).1 ≠ none →
        (fetchDataAndCache env url path w).2.stdout = w.stdout) := by
  unfold fetchDataAndCache
  have key : ∀ w0 : World, w0.dirs = w.dirs → w0.stdout = w.stdout →
      (∀ p, p ≠ path → w0.readFile p = w.readFile p) →
      ∀ c, (w0.setFile path c).dirs = w.dirs ∧ (w0.setFile path c).stdout = w.stdout ∧
        (∀ p, p ≠ path → (w0.setFile path c).readFile p = w.readFile p) := by
    intro w0 h1 h2 h3 c
    refine ⟨h1, h2, fun p hp => ?_⟩
    rw [readFile_setFile_ne _ _ _ _ hp]
    exact h3 p hp
  have base := key { w with requests := w.requests ++ [url] } rfl rfl (fun _ _ => rfl)
  cases hstat : stat env w path <;> simp only []
  · simp
  all_goals
    cases hget : env.httpGet url with
    | error e => simp [World.readFile]
    | ok resp =>
      simp only [create]
      cases hcreate : env.createErr path with
      | some e => simp [World.readFile]
      | none =>
        simp only []
        cases hparse : parseHTML env.htmlParse resp.Body with
        | error e =>
          simp only []
          exact ⟨(base "").1, (base "").2.2, fun _ => (base "").2.1⟩
        | ok text =>
          simp only [writeString]
          cases hwrite : env.writeErr path with
          | some f =>
            simp only []
            have b2 := key _ (base "").1 (base "").2.1 (base "").2.2
              ((((({ w with requests := w.requests ++ [url] } : World).setFile path "").readFile
                path).getD "") ++ ⟨text.data.take f.written⟩)
            exact ⟨b2.1, b2.2.2, fun _ => b2.2.1⟩
          | none =>
            simp only []
            have b2 := key _ (base "").1 (base "").2.1 (base "").2.2
              ((((({ w with requests := w.requests ++ [url] } : World).setFile path "").readFile
                path).getD "") ++ text)
            exact ⟨b2.1, b2.2.2, fun h => absurd rfl h⟩

theorem batchLoop_returns {σ : Type}
    (body : Nat → List Record → σ → Option (Option String × σ)) (records : List Record)
    (hbody : ∀ i b s, ∃ r, body i b s = some r)
    (fuel j : Nat) (s : σ) (hfuel : numBatches records.length - j < fuel) :
    ∃ r, batchLoop body records fuel (75 * j) s = some r := by
  induction fuel generalizing j s with
  | zero => omega
  | succ fuel ih =>
    rw [batchLoop]
    by_cases h : 75 * j < records.length
    · have hj : j < numBatches records.length := by
        unfold numBatches; omega
      have hstep : 75 * j + batchSize = 75 * (j + 1) := by
        simp only [batchSize]; omega
      rw [if_pos h]
      obtain ⟨r, hr⟩ := hbody (75 * j) (batchAt records (75 * j)) s
      rw [hr]
      obtain ⟨e, s1⟩ := r
      cases e with
      | some err => exact ⟨_, rfl⟩
      | none =>
        simp only []
        rw [hstep]
        exact ih (j + 1) s1 (by omega)
    · rw [if_neg h]
      exact ⟨_, rfl⟩

theorem writeBatch_returns (env : Env) (i : Nat) (batch : List Record) (w : World) :
    ∃ r, writeBatch env i batch w = some r := by
  simp only [writeBatch, templateParse_tmpl, create, templateExecute_batchTemplate]
  cases env.createErr (fileName i) with
  | some e => exact ⟨_, rfl⟩
  | none =>
    simp only []
    cases hw : (writeString env (w.setFile (fileName i) "") (fileName i) (renderSpec batch)) with
    | mk e w2 =>
      cases e with
      | some err => exact ⟨_, rfl⟩
      | none => exact ⟨_, rfl⟩

theorem filterRecords_pattern (records : List Record) :
    filterRecords regexpMustCompile records pattern =
      some (records.filter (fun r => containsCue r.Content.data)) := by
  rw [filterRecords_of_compile regexpMustCompile records pattern _ regexpMustCompile_cue]
  exact congrArg (fun p => some (List.filter p records))
    (funext fun r => matchAnywhere_cue r.Content)

theorem buildTemplates_returns (env : Env) (w : World) :
    ∃ r, buildTemplates env w = some r := by
  unfold buildTemplates
  cases hp : parse env "data.txt" w with
  | mk res w1 =>
    cases res with
    | error err => exact ⟨_, rfl⟩
    | ok records =>
      simp only [filterRecords_pattern]
      have h := batchLoop_returns (writeBatch env)
        (records.filter (fun r => containsCue r.Content.data)) (writeBatch_returns env)
        ((records.filter (fun r => containsCue r.Content.data)).length + 1) 0 w1
        (by unfold numBatches; omega)
      rw [Nat.mul_zero] at h
      exact h

theorem runReport1_returns (env : Env) (w : World) : ∃ r, RunReport1 env w = some r := by
  unfold RunReport1
  cases hf : fetchDataAndCache env "https://news.ycombinator.com/item?id=39232976" "data.txt" w with
  | mk e w1 =>
    cases e with
    | some err => exact ⟨_, rfl⟩
    | none =>
      simp only []
      cases he : ensureScratchDirectory env w1 with
      | mk e2 w2 =>
        cases e2 with
        | some err => exact ⟨_, rfl⟩
        | none =>
          simp only []
          obtain ⟨r, hr⟩ := buildTemplates_returns env w2
          rw [hr]
          obtain ⟨e3, w3⟩ := r
          cases e3 with
          | some err => exact ⟨_, rfl⟩
          | none => exact ⟨_, rfl⟩

/-- C11: `RunReport1` returns, and runs the stages in the order fetch, ensure
the directory, build the templates, stopping at the first that returns an
error. When the fetch fails, its error comes back behind `error fetching
data: ` and the world is the one the fetch left: no directory is added,
nothing is printed and no file but the cache file is touched. When the fetch
succeeds and the directory stage fails, its error comes back behind `error
ensuring scratch directory: ` and the world is the one that stage left. When
both succeed and `buildTemplates` fails, its error comes back behind `error
building templates: `. `RunReport1` returns no error exactly when the three
stages succeed one after the other. -/
theorem runReport1_stages (env : Env) (w : World) :
    (∃ r, RunReport1 env w = some r) ∧
    (∀ err w1,
      fetchDataAndCache env "https://news.ycombinator.com/item?id=39232976" "data.txt" w =
        (some err, w1) →
      RunReport1 env w = some (some ("error fetching data: " ++ err), w1) ∧
        w1.dirs = w.dirs ∧ w1.stdout = w.stdout ∧
        ∀ p, p ≠ "data.txt" → w1.readFile p = w.readFile p) ∧
    (∀ w1 err w2,
      fetchDataAndCache env "https://news.ycombinator.com/item?id=39232976" "data.txt" w =
        (none, w1) →
      ensureScratchDirectory env w1 = (some err, w2) →
      RunReport1 env w = some (some ("error ensuring scratch directory: " ++ err), w2) ∧
        w2 = w1) ∧
    (∀ w1 w2 err w3,
      fetchDataAndCache env "https://news.ycombinator.com/item?id=39232976" "data.txt" w =
        (none, w1) →
      ensureScratchDirectory env w1 = (none, w2) →
      buildTemplates env w2 = some (some err, w3) →
      RunReport1 env w = some (some ("error building templates: " ++ err), w3)) ∧
    (∀ w3, RunReport1 env w = some (none, w3) ↔
      ∃ w1 w2,
        fetchDataAndCache env "https://news.ycombinator.com/item?id=39232976" "data.txt" w =
          (none, w1) ∧
        ensureScratchDirectory env w1 = (none, w2) ∧
        buildTemplates env w2 = some (none, w3)) := by
  refine ⟨runReport1_returns env w, ?_, ?_, ?_, ?_⟩
  · intro err w1 hf
    have hframe := fetch_frame env "https://news.ycombinator.com/item?id=39232976" "data.txt" w
    rw [hf] at hframe
    refine ⟨by simp only [RunReport1, hf], hframe.1, hframe.2.2 (by simp), hframe.2.1⟩
  · intro w1 err w2 hf he
    refine ⟨by simp only [RunReport1, hf, he], ?_⟩
    unfold ensureScratchDirectory at he
    split at he
    · split at he
      · simp only [Prod.mk.injEq] at he
        exact he.2.symm
      · simp at he
    · simp at he
  · intro w1 w2 err w3 hf he hb
    simp only [RunReport1, hf, he, hb]
  · intro w3
    constructor
    · intro h
      unfold RunReport1 at h
      cases hf : fetchDataAndCache env "https://news.ycombinator.com/item?id=39232976"
          "data.txt" w with
      | mk e w1 =>
        rw [hf] at h
        cases e with
        | some err => simp at h
        | none =>
          simp only [] at h
          cases he : ensureScratchDirectory env w1 with
          | mk e2 w2 =>
            rw [he] at h
            cases e2 with
            | some err => simp at h
            | none =>
              simp only [] at h
              cases hb : buildTemplates env w2 with
              | none => rw [hb] at h; simp at h
              | some r =>
                rw [hb] at h
                obtain ⟨e3, w4⟩ := r
                cases e3 with
                | some err => simp at h
                | none =>
                  simp only [Option.some.injEq, Prod.mk.injEq, true_and] at h
                  subst h
                  exact ⟨w1, w2, rfl, he, hb⟩
    · rintro ⟨w1, w2, hf, he, hb⟩
      simp only [RunReport1, hf, he, hb]

theorem runReport1_stages_example :
    RunReport1 (calmEnv "x") (cachedWorld "old") =
      some (some "error fetching data: data already cached in data.txt", cachedWorld "old") :=
  ((runReport1_stages (calmEnv "x") (cachedWorld "old")).2.1
    "data already cached in data.txt" (cachedWorld "old") rfl).1

/-! ## `ensureScratchDirectory` -/

theorem statErr_of_notExist (env : Env) (w : World) (path : String)
    (h : stat env w path = StatResult.notExist) : env.statErr path = none := by
  unfold stat at h
  cases hs : env.statErr path with
  | none => rfl
  | some e => rw [hs] at h; simp at h

theorem stat_after_mkdir (env : Env) (w : World) (path : String)
    (h : env.statErr path = none) :
    stat env { w with dirs := path :: w.dirs } path = StatResult.ok := by
  simp [stat, h]

/-- C12 (amended): `ensureScratchDirectory` returns an error exactly when the
stat of the directory reports that it does not exist and `os.Mkdir` fails.
When the directory exists it returns no error and changes nothing; when it is
absent and can be created it creates it and returns no error; when the stat
fails for another reason it returns no error and changes nothing. -/
theorem ensureScratchDirectory_spec (env : Env) (w : World) :
    (stat env w scratch = StatResult.ok → ensureScratchDirectory env w = (none, w)) ∧
    (stat env w scratch = StatResult.notExist → env.mkdirErr scratch = none →
      ensureScratchDirectory env w = (none, { w with dirs := scratch :: w.dirs }) ∧
        stat env { w with dirs := scratch :: w.dirs } scratch = StatResult.ok) ∧
    (∀ e, stat env w scratch = StatResult.notExist → env.mkdirErr scratch = some e →
      ensureScratchDirectory env w =
        (some ("error creating 'scratch' directory: " ++ e), w)) ∧
    (∀ e, stat env w scratch = StatResult.failed e → ensureScratchDirectory env w = (none, w)) ∧
    ((ensureScratchDirectory env w).1 ≠ none ↔
      stat env w scratch = StatResult.notExist ∧ env.mkdirErr scratch ≠ none) := by
  refine ⟨?_, ?_, ?_, ?_, ?_⟩
  · intro h
    simp [ensureScratchDirectory, h]
  · intro h hm
    exact ⟨by simp [ensureScratchDirectory, h, mkdir, hm],
      stat_after_mkdir env w scratch (statErr_of_notExist env w scratch h)⟩
  · intro e h hm
    simp [ensureScratchDirectory, h, mkdir, hm]
  · intro e h
    simp [ensureScratchDirectory, h]
  · unfold ensureScratchDirectory
    cases h : stat env w scratch with
    | ok => simp
    | failed e => simp
    | notExist =>
      simp only [mkdir]
      cases hm : env.mkdirErr scratch with
      | none => simp
      | some e => simp

theorem ensureScratchDirectory_example :
    ensureScratchDirectory (calmEnv "")
        { files := [], dirs := [], requests := [], stdout := "" } =
      (none, { files := [], dirs := ["."], requests := [], stdout := "" }) :=
  ((ensureScratchDirectory_spec (calmEnv "")
    { files := [], dirs := [], requests := [], stdout := "" }).2.1 rfl rfl).1

/-- C12 as stated fails: when the stat of the output directory fails with a
permission error, the directory cannot be verified, and
`ensureScratchDirectory` returns no error. -/
theorem ensureScratchDirectory_counterexample :
    stat (deniedEnv "") { files := [], dirs := [], requests := [], stdout := "" } scratch =
        StatResult.failed "permission denied" ∧
      ensureScratchDirectory (deniedEnv "")
          { files := [], dirs := [], requests := [], stdout := "" } =
        (none, { files := [], dirs := [], requests := [], stdout := "" }) ∧
      ¬ (ensureScratchDirectory (deniedEnv "")
          { files := [], dirs := [], requests := [], stdout := "" }).1 ≠ none := by
  refine ⟨rfl, rfl, ?_⟩
  intro h
  exact h rfl

/-! ## `fetchDataAndCache` and the status code -/

theorem fetch_withResponse (env : Env) (url path : String) (w : World) (resp : Response) :
    fetchDataAndCache (withResponse env resp) url path w =
      match stat env w path with
      | StatResult.ok => (some ("data already cached in " ++ path), w)
      | _ =>
        match create env { w with requests := w.requests ++ [url] } path with
        | Except.error err =>
          (some ("error creating cache file: " ++ err),
            { w with requests := w.requests ++ [url] })
        | Except.ok w2 =>
          match parseHTML env.htmlParse resp.Body with
          | Except.error err => (some ("error parsing HTML: " ++ err), w2)
          | Except.ok textContent =>
            match writeString env w2 path textContent with
            | (some err, w3) => (some ("error writing data to " ++ path ++ ": " ++ err), w3)
            | (none, w3) =>
              (none, w3.print ("Data fetched and cached as text in " ++ path ++ "\n")) := by
  rfl

/-- C13: the outcome of `fetchDataAndCache` does not depend on the status code
of the response: two responses with the same body and the status codes `c1`
and `c2` give the same error value and the same world. When the cache file
is absent, the body is readable and the file can be created and written,
both give success, and the cache file holds the text extracted from the
body. -/
theorem fetch_ignores_status (env : Env) (url path : String) (w : World) (c1 c2 : Nat)
    (body : Body) :
    fetchDataAndCache (withResponse env { StatusCode := c1, Body := body }) url path w =
        fetchDataAndCache (withResponse env { StatusCode := c2, Body := body }) url path w ∧
    (stat env w path = StatResult.notExist → body.readErr = none →
      env.createErr path = none → env.writeErr path = none →
      (fetchDataAndCache (withResponse env { StatusCode := c1, Body := body }) url path w).1 =
          none ∧
        (fetchDataAndCache (withResponse env { StatusCode := c1, Body := body })
            url path w).2.readFile path =
          some (textContent (env.htmlParse body.data))) := by
  refine ⟨by rw [fetch_withResponse, fetch_withResponse], ?_⟩
  intro hstat hread hcreate hwrite
  rw [fetch_withResponse]
  simp only [hstat, create, hcreate, parseHTML, htmlParseReader, hread, writeString, hwrite,
    readFile_setFile, Option.getD_some, empty_append, setFile_setFile, extractText_eq]
  exact ⟨trivial, readFile_setFile _ _ _⟩

theorem fetch_ignores_status_example :
    fetchDataAndCache
        (withResponse (calmEnv "") { StatusCode := 200, Body := { data := "hi", readErr := none } })
        "https://example.org/" "data.txt"
        { files := [], dirs := [], requests := [], stdout := "" } =
      fetchDataAndCache
        (withResponse (calmEnv "") { StatusCode := 404, Body := { data := "hi", readErr := none } })
        "https://example.org/" "data.txt"
        { files := [], dirs := [], requests := [], stdout := "" } :=
  (fetch_ignores_status (calmEnv "") "https://example.org/" "data.txt"
    { files := [], dirs := [], requests := [], stdout := "" } 200 404
    { data := "hi", readErr := none }).1

/-! ## The content of a record -/

theorem append_empty (s : String) : s ++ "" = s := by
  apply String.ext; simp

theorem accumulateFrom_eq_join (seg : List String) (b : String) :
    accumulateFrom b seg = b ++ String.join (seg.map (fun l => l ++ "\n")) := by
  induction seg generalizing b with
  | nil => simp [accumulateFrom, String.join, append_empty]
  | cons l seg ih =>
    have h : accumulateFrom b (l :: seg) = accumulateFrom ((b ++ l) ++ "\n") seg := rfl
    rw [h, ih, List.map_cons, string_join_cons]
    simp only [String.append_assoc]

theorem accumulate_eq_join (seg : List String) :
    accumulate seg = String.join (seg.map (fun l => l ++ "\n")) := by
  rw [accumulate, accumulateFrom_eq_join, empty_append]

theorem intercalate_go (s : String) (as : List String) (acc : String) :
    String.intercalate.go acc s as = acc ++ String.join (as.map (fun a => s ++ a)) := by
  induction as generalizing acc with
  | nil => simp [String.intercalate.go, String.join, append_empty]
  | cons a as ih =>
    rw [String.intercalate.go, ih, List.map_cons, string_join_cons]
    simp only [String.append_assoc]

theorem join_shift (s : String) (as : List String) :
    String.join (as.map (fun a => s ++ a)) ++ s = s ++ String.join (as.map (fun a => a ++ s)) := by
  induction as with
  | nil => simp [String.join, append_empty, empty_append]
  | cons a as ih =>
    rw [List.map_cons, List.map_cons, string_join_cons, string_join_cons, String.append_assoc,
      ih]
    simp only [String.append_assoc]

theorem accumulate_eq_intercalate (seg : List String) (h : seg ≠ []) :
    accumulate seg = String.intercalate "\n" seg ++ "\n" := by
  obtain ⟨a, as, rfl⟩ := List.exists_cons_of_ne_nil h
  rw [accumulate_eq_join, String.intercalate, intercalate_go, List.map_cons, string_join_cons,
    String.append_assoc, String.append_assoc, join_shift]

theorem mem_emitRecords (cs : List String) (r : Record) (h : r ∈ emitRecords cs) :
    r.Content ∈ cs := by
  unfold emitRecords at h
  rcases List.mem_append.1 h with h | h
  · obtain ⟨c, hc, rfl⟩ := List.mem_map.1 h
    exact List.mem_of_mem_dropLast hc
  · cases hl : cs.getLast? with
    | none => rw [hl] at h; simp at h
    | some c =>
      rw [hl] at h
      by_cases hc : c = ""
      · simp [hc] at h
      · simp only [hc, ne_eq, not_false_eq_true, if_true, List.mem_singleton] at h
        rw [h]
        exact List.mem_of_getLast?_eq_some hl

/-- C14 (amended): every record `parse` returns comes from one segment of the
input, and its `Content` is the accumulation of the segment's lines: each
line followed by a newline, that is, for a segment with at least one line,
the lines joined by newline and one more newline at the end. -/
theorem content_lines (env : Env) (w : World) (fname content : String) (lines : List String)
    (hopen : openFile env w fname = Except.ok content)
    (hscan : env.newScanner content = { lines := lines, err := none }) :
    ∃ recs, (parse env fname w).1 = Except.ok recs ∧
      ∀ r ∈ recs, ∃ seg ∈ segments lines,
        r.Content = String.join (seg.map (fun l => l ++ "\n")) ∧
        (seg ≠ [] → r.Content = String.intercalate "\n" seg ++ "\n") ∧
        (seg = [] → r.Content = "") := by
  refine ⟨parseSpec lines, parse_eq_parseSpec env w fname content lines hopen hscan, ?_⟩
  intro r hr
  have h := mem_emitRecords _ r hr
  obtain ⟨seg, hseg, hc⟩ := List.mem_map.1 h
  refine ⟨seg, hseg, ?_, ?_, ?_⟩
  · rw [← hc, accumulate_eq_join]
  · intro hne
    rw [← hc, accumulate_eq_intercalate seg hne]
  · rintro rfl
    rw [← hc]
    rfl

theorem content_lines_witness :
    ∃ recs, (parse (calmEnv "") "data.txt" (cachedWorld "reply\na\nb\n")).1 = Except.ok recs ∧
      ∀ r ∈ recs, ∃ seg ∈ segments ["reply", "a", "b"],
        r.Content = String.join (seg.map (fun l => l ++ "\n")) ∧
        (seg ≠ [] → r.Content = String.intercalate "\n" seg ++ "\n") ∧
        (seg = [] → r.Content = "") :=
  content_lines (calmEnv "") (cachedWorld "reply\na\nb\n") "data.txt" "reply\na\nb\n"
    ["reply", "a", "b"] rfl rfl

/-- C14 as stated fails: for the lines `reply`, `a`, `b` the one segment is
`a`, `b` and the record's `Content` is `a\nb\n`, not the lines joined by
newline, `a\nb`. -/
theorem content_lines_counterexample :
    segments ["reply", "a", "b"] = [["a", "b"]] ∧
      (parse (calmEnv "") "data.txt" (cachedWorld "reply\na\nb\n")).1 =
        Except.ok [{ Content := "a\nb\n" }] ∧
      String.intercalate "\n" ["a", "b"] = "a\nb" ∧
      ¬ ("a\nb\n" = String.intercalate "\n" ["a", "b"]) := by
  refine ⟨by decide, rfl, by decide, by decide⟩

/-! ## The invariant of the loop of `parse` -/

theorem parseInv_init : parseInv ParseState.init := by
  intro h
  exact absurd rfl h

theorem parseInv_step (st : ParseState) (line : String) (h : parseInv st) :
    parseInv (parseStep st line) := by
  unfold parseStep
  by_cases hs : isSentinel line = true
  · by_cases hr : st.inRecord = true
    · simp [hs, hr, parseInv]
    · simp [hs, hr, parseInv]
  · by_cases hr : st.inRecord = true
    · simp [hs, hr, parseInv]
    · simpa [hs, hr] using h

theorem parseInv_loop (lines : List String) (st : ParseState) (h : parseInv st) :
    parseInv (parseLoop st lines) := by
  induction lines generalizing st with
  | nil => exact h
  | cons l lines ih => exact ih (parseStep st l) (parseInv_step st l h)

/-- C15: the invariant `parseInv` (a builder that is not empty means that a
record is open) holds before the loop, is kept by every iteration, and so
holds after every processed line; hence the flush at the end of the input,
which tests only the builder, appends a record exactly when a record is open
and its accumulated content is not empty. -/
theorem parse_invariant (lines : List String) :
    parseInv ParseState.init ∧
    (∀ st line, parseInv st → parseInv (parseStep st line)) ∧
    (∀ processed rest, lines = processed ++ rest →
      parseInv (parseLoop ParseState.init processed)) ∧
    parseFlush (parseLoop ParseState.init lines) =
      (if (parseLoop ParseState.init lines).inRecord = true ∧
          (parseLoop ParseState.init lines).currentRecord ≠ "" then
        (parseLoop ParseState.init lines).records ++
          [{ Content := (parseLoop ParseState.init lines).currentRecord }]
      else (parseLoop ParseState.init lines).records) := by
  refine ⟨parseInv_init, parseInv_step, fun processed _ _ =>
    parseInv_loop processed _ parseInv_init, ?_⟩
  have hinv := parseInv_loop lines _ parseInv_init
  unfold parseFlush
  by_cases hb : (parseLoop ParseState.init lines).currentRecord = ""
  · have h0 : ¬ (parseLoop ParseState.init lines).currentRecord.length > 0 := by
      rw [string_length_pos_iff]; simp [hb]
    simp [h0, hb]
  · have h0 : (parseLoop ParseState.init lines).currentRecord.length > 0 :=
      (string_length_pos_iff _).2 hb
    simp [h0, hb, hinv hb]

theorem parse_invariant_example :
    parseFlush (parseLoop ParseState.init ["x", "reply", "a"]) = [{ Content := "a\n" }] := by
  rw [(parse_invariant ["x", "reply", "a"]).2.2.2]
  decide

/-! ## The file names of different batches -/

theorem sprintf02d_injective (n m : Nat) (h : sprintf02d n = sprintf02d m) : n = m := by
  have h1 := decimalValue_sprintf02d n
  rw [h, decimalValue_sprintf02d m] at h1
  exact h1.symm

theorem fileName_index_injective (k1 k2 : Nat) (h : fileName (75 * k1) = fileName (75 * k2)) :
    k1 = k2 := by
  rw [fileName_index, fileName_index] at h
  have h1 := congrArg String.data h
  simp only [String.data_append] at h1
  have h2 := List.append_cancel_left (List.append_cancel_right h1)
  have h3 : sprintf02d (k1 + 1) = sprintf02d (k2 + 1) := String.ext h2
  have h4 := sprintf02d_injective _ _ h3
  omega

/-- C16: the map from the batch index to the file name is injective, so the
file names the loop computes for one sequence of records are pairwise
different: two positions in the list of batches with the same file name are
the same position. -/
theorem fileNames_injective (records : List Record) :
    (∀ k1 k2, fileName (75 * k1) = fileName (75 * k2) → k1 = k2) ∧
    (∀ n m, sprintf02d n = sprintf02d m → n = m) ∧
    ∃ L : List (String × List Record),
      batches records = some L ∧
      (L.map Prod.fst).Nodup ∧
      ∀ i j, i < L.length → j < L.length →
        (L.map Prod.fst)[i]? = (L.map Prod.fst)[j]? → i = j := by
  refine ⟨fileName_index_injective, sprintf02d_injective, _, batches_eq records, ?_, ?_⟩
  · rw [List.map_map]
    exact List.Nodup.map (fun k1 k2 h => fileName_index_injective k1 k2 h) (List.nodup_range _)
  · intro i j hi hj h
    simp only [List.length_map, List.length_range] at hi hj
    rw [List.map_map, List.getElem?_map, List.getElem?_map, List.getElem?_range hi,
      List.getElem?_range hj] at h
    simp only [Option.map_some', Function.comp_apply, Option.some.injEq] at h
    exact fileName_index_injective i j h

theorem fileNames_injective_example :
    fileName (75 * 0) ≠ fileName (75 * 1) := by
  intro h
  exact absurd ((fileNames_injective []).1 0 1 h) (by decide)

/-! ## `fetchDataAndCache` after a failure past the creation of the cache file -/

theorem stat_of_file (env : Env) (w : World) (path : String)
    (hstat : env.statErr path = none) (hfile : (w.readFile path).isSome = true) :
    stat env w path = StatResult.ok := by
  simp [stat, hstat, hfile]

theorem fetch_of_file (env : Env) (url path : String) (w : World)
    (hstat : env.statErr path = none) (hfile : (w.readFile path).isSome = true) :
    fetchDataAndCache env url path w = (some ("data already cached in " ++ path), w) := by
  simp [fetchDataAndCache, stat_of_file env w path hstat hfile]

theorem take_ne_of_lt (text : String) (n : Nat) (h : n < text.length) :
    (⟨text.data.take n⟩ : String) ≠ text := by
  intro heq
  have h1 := congrArg String.length heq
  simp only [String.length, List.length_take] at h1 h
  omega

/-- C17: when the cache file is absent, the request succeeds and the cache
file is created, a failure of the text extraction or of the write makes
`fetchDataAndCache` return an error and leave the cache file in place: empty
after a failed extraction, holding only the part written after a failed
write (not the extracted text when the write stopped short of it). From
then on, in every world in which the file still exists, every call returns
`data already cached` and sends no request. -/
theorem fetch_not_atomic (env : Env) (url path : String) (w : World) (resp : Response)
    (habsent : stat env w path = StatResult.notExist)
    (hget : env.httpGet url = Except.ok resp)
    (hcreate : env.createErr path = none) :
    (∀ e, resp.Body.readErr = some e →
      ∃ w1, fetchDataAndCache env url path w = (some ("error parsing HTML: " ++ e), w1) ∧
        w1.readFile path = some "" ∧
        ∀ url2, fetchDataAndCache env url2 path w1 =
          (some ("data already cached in " ++ path), w1)) ∧
    (∀ f, resp.Body.readErr = none → env.writeErr path = some f →
      ∃ w1, fetchDataAndCache env url path w =
          (some ("error writing data to " ++ path ++ ": " ++ f.err), w1) ∧
        w1.readFile path =
          some ⟨(textContent (env.htmlParse resp.Body.data)).data.take f.written⟩ ∧
        (f.written < (textContent (env.htmlParse resp.Body.data)).length →
          w1.readFile path ≠ some (textContent (env.htmlParse resp.Body.data))) ∧
        ∀ url2, fetchDataAndCache env url2 path w1 =
          (some ("data already cached in " ++ path), w1)) ∧
    (∀ w2 url2, (w2.readFile path).isSome = true →
      fetchDataAndCache env url2 path w2 = (some ("data already cached in " ++ path), w2) ∧
        (fetchDataAndCache env url2 path w2).2.requests = w2.requests) := by
  have hstat := statErr_of_notExist env w path habsent
  refine ⟨?_, ?_, ?_⟩
  · intro e he
    refine ⟨({ w with requests := w.requests ++ [url] } : World).setFile path "", ?_,
      readFile_setFile _ _ _, ?_⟩
    · simp [fetchDataAndCache, habsent, hget, create, hcreate, parseHTML, htmlParseReader, he]
    · intro url2
      exact fetch_of_file env url2 path _ hstat (by rw [readFile_setFile]; rfl)
  · intro f he hw
    refine ⟨({ w with requests := w.requests ++ [url] } : World).setFile path
        ⟨(textContent (env.htmlParse resp.Body.data)).data.take f.written⟩, ?_,
      readFile_setFile _ _ _, ?_, ?_⟩
    · simp only [fetchDataAndCache, habsent, hget, create, hcreate, parseHTML, htmlParseReader,
        he, writeString, hw, readFile_setFile, Option.getD_some, empty_append, setFile_setFile,
        extractText_eq]
      rfl
    · intro hlt
      rw [readFile_setFile]
      intro heq
      exact take_ne_of_lt _ _ hlt (Option.some.inj heq)
    · intro url2
      exact fetch_of_file env url2 path _ hstat (by rw [readFile_setFile]; rfl)
  · intro w2 url2 hfile
    have h := fetch_of_file env url2 path w2 hstat hfile
    exact ⟨h, by rw [h]⟩

theorem fetch_not_atomic_witness :
    ∃ w1,
      fetchDataAndCache
          (withResponse (calmEnv "")
            { StatusCode := 200, Body := { data := "<p>", readErr := some "unexpected EOF" } })
          "https://example.org/" "data.txt"
          { files := [], dirs := [], requests := [], stdout := "" } =
        (some ("error parsing HTML: " ++ "unexpected EOF"), w1) ∧
      w1.readFile "data.txt" = some "" ∧
      ∀ url2,
        fetchDataAndCache
            (withResponse (calmEnv "")
              { StatusCode := 200, Body := { data := "<p>", readErr := some "unexpected EOF" } })
            url2 "data.txt" w1 =
          (some ("data already cached in " ++ "data.txt"), w1) :=
  (fetch_not_atomic
    (withResponse (calmEnv "")
      { StatusCode := 200, Body := { data := "<p>", readErr := some "unexpected EOF" } })
    "https://example.org/" "data.txt" { files := [], dirs := [], requests := [], stdout := "" }
    { StatusCode := 200, Body := { data := "<p>", readErr := some "unexpected EOF" } }
    rfl rfl rfl).1 "unexpected EOF" rfl

/-! ## The second alternative of the pattern -/

theorem regexpMustCompile_cue_only :
    regexpMustCompile ("(?i)" ++ "cue") =
      some { MatchString := matchAnywhere (alternation true ["cue".data]) } := by
  rfl

theorem matchAnywhere_cue_only (s : String) :
    matchAnywhere (alternation true ["cue".data]) s = containsCue s.data := by
  rw [Bool.eq_iff_iff, matchAnywhere_iff, containsCue_iff]
  constructor
  · rintro ⟨before, m, after, hs, hm⟩
    rw [mem_matches_alternation] at hm
    obtain ⟨alt, halt, hm⟩ := hm
    simp only [List.mem_singleton] at halt
    subst halt
    obtain ⟨a, b, c, rfl, hcue⟩ := (forall₂_cue m).1 hm
    exact ⟨before, a, b, c, after, by simpa using hs, hcue⟩
  · rintro ⟨before, a, b, c, after, hs, hcue⟩
    refine ⟨before, [a, b, c], after, by simpa using hs, ?_⟩
    rw [mem_matches_alternation]
    exact ⟨"cue".data, by simp, (forall₂_cue _).2 ⟨a, b, c, rfl, hcue⟩⟩

theorem filterRecords_cue_only (records : List Record) :
    filterRecords regexpMustCompile records "cue" =
      some (records.filter (fun r => containsCue r.Content.data)) := by
  rw [filterRecords_of_compile regexpMustCompile records "cue" _ regexpMustCompile_cue_only]
  exact congrArg (fun p => some (List.filter p records))
    (funext fun r => matchAnywhere_cue_only r.Content)

/-- C18: for every sequence of records, `filterRecords` with the pattern
`cue|cuelang` returns what it returns with the pattern `cue`; the match is
unanchored, and every text the alternative `cuelang` matches begins with a
text the alternative `cue` matches. -/
theorem filterRecords_alternative_redundant (records : List Record) :
    filterRecords regexpMustCompile records "cue|cuelang" =
        filterRecords regexpMustCompile records "cue" ∧
    (∃ out, filterRecords regexpMustCompile records "cue" = some out) ∧
    (∀ m, m ∈ (literalSeq true "cuelang".data).matches' →
      ∃ m1 m2, m = m1 ++ m2 ∧ m1 ∈ (literalSeq true "cue".data).matches') ∧
    (∀ s, matchAnywhere (alternation true ["cue".data, "cuelang".data]) s =
      matchAnywhere (alternation true ["cue".data]) s) := by
  refine ⟨?_, ⟨_, filterRecords_cue_only records⟩, ?_, ?_⟩
  · rw [filterRecords_cue_only]
    exact filterRecords_pattern records
  · intro m hm
    rw [mem_matches_literalSeq] at hm
    obtain ⟨a, b, c, after, rfl, hcue⟩ := forall₂_cuelang m hm
    refine ⟨[a, b, c], after, rfl, ?_⟩
    rw [mem_matches_literalSeq]
    exact (forall₂_cue _).2 ⟨a, b, c, rfl, hcue⟩
  · intro s
    rw [matchAnywhere_cue, matchAnywhere_cue_only]

theorem filterRecords_alternative_redundant_example :
    filterRecords regexpMustCompile
        [{ Content := "Cuelang rocks" }, { Content := "pkl" }, { Content := "barbeCUE" }]
        "cue|cuelang" =
      filterRecords regexpMustCompile
        [{ Content := "Cuelang rocks" }, { Content := "pkl" }, { Content := "barbeCUE" }]
        "cue" :=
  (filterRecords_alternative_redundant
    [{ Content := "Cuelang rocks" }, { Content := "pkl" }, { Content := "barbeCUE" }]).1

end Report1
